import Mathlib

/-!
# Verification of the PKG code-agent service against its specification

Shallow embedding, in Lean 4, of the parts of the `py-processor` repository
that the specification's checkable claims are about:

* `services/pkg_query_engine.py` — module-ID extraction, impact BFS,
  dependency fan-in/fan-out, entry-point lookup;
* `services/pkg_generator.py` — symbol-ID generation and symbol/export
  building;
* `services/parser_service.py` — git-SHA keyed PKG cache;
* `code_parser/multi_parser.py` — per-module framework detection;
* `agents/planner.py` — plan generation and Angular extension validation;
* `agents/code_editor.py` — validation gating of file writes;
* `services/agent_orchestrator.py` — the approval gate of the workflow.

Python strings are modelled as `String` / `List Char`, Python `None` as
`Option`, Python dicts keyed by insertion as association lists, Python sets as
deduplicated lists (membership-faithful), and Python float confidence scores
as exact hundredths in `Nat` (every decimal the source computes with is a
multiple of `0.01`; none of the claims depends on binary rounding).  Case
folding of Python's `str.lower()` is modelled on the ASCII range, which
covers every string the source compares against.
-/

namespace PyProc

/-! ## String helpers (Python `str` operations used by the source) -/

/-- Character-list test for `pat` being a prefix of `s` (Python `str.startswith`). -/
def isPrefixChars : List Char → List Char → Bool
  | [], _ => true
  | _ :: _, [] => false
  | a :: as, b :: bs => a == b && isPrefixChars as bs

/-- Python `s.startswith(pat)`. -/
def pyStartsWith (s pat : String) : Bool :=
  isPrefixChars pat.data s.data

/-- Python `s.split(sep, maxsplit)` on character lists: split at the first
occurrence of `sep` at most `maxsplit` times. -/
def pySplitMax (sep : Char) : Nat → List Char → List (List Char)
  | 0, s => [s]
  | m + 1, s =>
    let pre := s.takeWhile (· != sep)
    match s.dropWhile (· != sep) with
    | [] => [s]
    | _ :: tail => pre :: pySplitMax sep m tail

/-- ASCII case folding of one character (`str.lower()` on the strings the
source compares, which are all ASCII). -/
def asciiLowerChar (c : Char) : Char :=
  if 'A' ≤ c ∧ c ≤ 'Z' then Char.ofNat (c.toNat + 32) else c

/-- ASCII `str.lower()` on a character list. -/
def asciiLowerChars (s : List Char) : List Char :=
  s.map asciiLowerChar

/-- ASCII `str.lower()`. -/
def asciiLower (s : String) : String :=
  String.mk (asciiLowerChars s.data)

/-- POSIX `os.path.basename`: the part of the path after the last slash. -/
def basenameChars (s : List Char) : List Char :=
  (s.reverse.takeWhile (· != '/')).reverse

/-! ## C1 — `PKGQueryEngine._extract_module_id` and
`PKGGenerator._generate_symbol_id` -/

/-- `pkg_generator.py` lines 48–50: symbol IDs are
`"sym:" + module_id + ":" + symbol_name` where `module_id = "mod:" + relPath`. -/
def generateSymbolId (moduleId symbolName : String) : String :=
  "sym:" ++ moduleId ++ ":" ++ symbolName

/-- `pkg_query_engine.py` lines 345–371 (`_extract_module_id`): empty and
unrecognised strings give `None`; `mod:`-prefixed strings are returned as is;
`sym:`-prefixed strings are split on `":"` with `maxsplit=3` and
`"mod:" + parts[1]` is returned when there are at least three parts. -/
def extractModuleId (idString : String) : Option String :=
  if idString = "" then none
  else if pyStartsWith idString "mod:" then some idString
  else if pyStartsWith idString "sym:" then
    let parts := pySplitMax ':' 3 idString.data
    if 3 ≤ parts.length then some ("mod:" ++ String.mk (parts.getD 1 []))
    else none
  else none

/-! ## C3 — `parser_service.generate_pkg` cache decision -/

/-- A PKG document as the cache logic sees it: its optional `gitSha` and an
abstract payload distinguishing documents. -/
structure PkgDoc where
  gitSha : Option String
  payload : String
deriving DecidableEq, Repr

/-- `parser_service.py` lines 92–134: with caching enabled and a readable
`pkg.json` whose `gitSha` and the repository's current SHA are both present
and equal, the cached document is returned (second component `false` = not
regenerated); in every other situation the PKG is regenerated (`true`).
`cached = none` covers both a missing cache file and a JSON read error. -/
def generatePkgCacheStep (useCache : Bool) (cached : Option PkgDoc)
    (currentSha : Option String) (fresh : PkgDoc) : PkgDoc × Bool :=
  match useCache, cached with
  | true, some c =>
    match c.gitSha, currentSha with
    | some cs, some rs => if cs = rs then (c, false) else (fresh, true)
    | _, _ => (fresh, true)
  | _, _ => (fresh, true)

/-! ## C9 — `PKGQueryEngine.get_entry_point_modules` -/

/-- A module as the query engine reads it: its `id` and repo-relative `path`. -/
structure QModule where
  id : String
  path : String
deriving DecidableEq, Repr

/-- `pkg_query_engine.py` lines 443–450: the closed entry-point basename list,
verbatim (including the capitalised Java/C# names). -/
def entryPatterns : List String :=
  ["main.ts", "main.js", "main.tsx", "main.jsx",
   "index.ts", "index.js", "index.tsx", "index.jsx",
   "app.py", "main.py", "__main__.py",
   "main.java", "Application.java",
   "Program.cs", "Main.cs",
   "main.cpp", "main.c"]

/-- `pkg_query_engine.py` lines 436–459 (`get_entry_point_modules`): the path
is lower-cased first, then its basename is compared for exact membership in
`entryPatterns`. -/
def getEntryPointModules (modules : List QModule) : List QModule :=
  modules.filter fun m =>
    let path := asciiLowerChars m.path.data
    let basename := if path ≠ [] then basenameChars path else []
    entryPatterns.any fun p => p.data == basename

/-! ## C5 / C4 — the in-memory query engine over edges -/

/-- An edge as the query engine reads it: `edge.get('from')`, `edge.get('to')`
(absent keys give `None`) and its type. -/
structure QEdge where
  efrom : Option String
  eto : Option String
  etype : String
deriving DecidableEq, Repr

/-- The common guard `if not edge_from or not edge_to: continue` of
`get_dependencies` and `get_impacted_modules`: both endpoint strings must be
present and non-empty (Python falsiness). -/
def edgeEndpoints (e : QEdge) : Option (String × String) :=
  match e.efrom, e.eto with
  | some f, some t => if f = "" ∨ t = "" then none else some (f, t)
  | _, _ => none

/-- Python `set.add`, on a list kept deduplicated in insertion order. -/
def addUnique (l : List String) (x : String) : List String :=
  if x ∈ l then l else l ++ [x]

/-- The `_module_by_id` dict of the engine's constructor: later modules with
the same id overwrite earlier ones. -/
def moduleById (modules : List QModule) (mid : String) : Option QModule :=
  modules.reverse.find? fun m => m.id == mid

/-- One edge of the `get_dependencies` loop (`pkg_query_engine.py` lines
253–267), acting on the accumulated `(callers, callees)` sets. -/
def depStep (moduleId : String) (acc : List String × List String) (e : QEdge) :
    List String × List String :=
  match edgeEndpoints e with
  | none => acc
  | some (f, t) =>
    if extractModuleId f = some moduleId ∧ (extractModuleId t).isSome then
      (acc.1, addUnique acc.2 ((extractModuleId t).getD ""))
    else if extractModuleId t = some moduleId ∧ (extractModuleId f).isSome then
      (addUnique acc.1 ((extractModuleId f).getD ""), acc.2)
    else acc

/-- The `(callers, callees)` string sets accumulated by `get_dependencies`. -/
def depSets (edges : List QEdge) (moduleId : String) : List String × List String :=
  edges.foldl (depStep moduleId) ([], [])

/-- Result record of `get_dependencies` (in-memory path). -/
structure DepResult where
  callers : List QModule
  callees : List QModule
  fanInCount : Nat
  fanOutCount : Nat

/-- `pkg_query_engine.py` lines 224–285 (`get_dependencies`), in-memory path
(no graph-DB engine attached): scan all edges, collect caller/callee module
IDs, then materialise those that exist in `_module_by_id`. -/
def getDependencies (modules : List QModule) (edges : List QEdge)
    (moduleId : String) : DepResult :=
  { callers := (depSets edges moduleId).1.filterMap (moduleById modules)
    callees := (depSets edges moduleId).2.filterMap (moduleById modules)
    fanInCount := (depSets edges moduleId).1.length
    fanOutCount := (depSets edges moduleId).2.length }

/-- An edge contributing `y` to the callee set of `moduleId`. -/
def EdgeCallee (moduleId y : String) (e : QEdge) : Prop :=
  ∃ f t, edgeEndpoints e = some (f, t) ∧
    extractModuleId f = some moduleId ∧ extractModuleId t = some y

/-- An edge contributing `x` to the caller set of `moduleId` (the `elif`
branch, so the callee condition must have failed). -/
def EdgeCaller (moduleId x : String) (e : QEdge) : Prop :=
  ∃ f t, edgeEndpoints e = some (f, t) ∧
    ¬(extractModuleId f = some moduleId ∧ (extractModuleId t).isSome) ∧
    extractModuleId t = some moduleId ∧ extractModuleId f = some x

/-! ## C7 — `multi_parser.detect_module_framework` -/

/-- Python `sub in s` on character lists. -/
def containsSub (s pat : List Char) : Bool :=
  isPrefixChars pat s ||
    match s with
    | [] => false
    | _ :: rest => containsSub rest pat

/-- Python `sub in s` for strings. -/
def pyIn (sub s : String) : Bool :=
  containsSub s.data sub.data

/-- Split a character list at every occurrence of `sep` (Python
`str.split(sep)` without maxsplit, used to model that `.` in a regex does not
cross newlines). -/
def splitCh (sep : Char) : List Char → List (List Char)
  | [] => [[]]
  | c :: rest =>
    match splitCh sep rest with
    | [] => [[]]
    | cur :: done => if c == sep then [] :: cur :: done else (c :: cur) :: done

/-- `re.search(a + ".*" + b, line)` on one line, for literal `a` and `b`: the
first occurrence of `a` followed (disjointly) by an occurrence of `b`.  If any
occurrence of `a` works then the first one does, since the tail after a later
occurrence is a suffix of the tail after the first. -/
def containsAfterLine : List Char → List Char → List Char → Bool
  | [], a, b => isPrefixChars a [] && containsSub [] b
  | c :: rest, a, b =>
    if isPrefixChars a (c :: rest) then containsSub ((c :: rest).drop a.length) b
    else containsAfterLine rest a b

/-- `re.search(a + ".*" + b, s)`: some line of `s` matches (`.` does not match
a newline).  `IGNORECASE` is modelled by passing the lower-cased source. -/
def regexAfter (s : List Char) (a b : String) : Bool :=
  (splitCh '\n' s).any fun line => containsAfterLine line a.data b.data

/-- `multi_parser.py` lines 237–262: the Angular indicator count.  `ext` is
`os.path.splitext(file_path)[1].lower()` and `decorators` abstracts the texts
of the tree-sitter `decorator` nodes of the parsed source (the one external
component of the function).  The `.ts`-and-component bonus tests the count
accumulated so far, before the decorator walk, as in the source. -/
def angularIndicators (ext filePath source : String) (decorators : List String) : Nat :=
  let sl := asciiLowerChars source.data
  let base :=
    (if containsSub sl "@component".data || containsSub sl "@ngmodule".data then 2 else 0) +
    (if containsSub sl "@injectable".data then 1 else 0) +
    (if containsSub sl "@input".data || containsSub sl "@output".data then 1 else 0) +
    (if regexAfter sl "import" "@angular/" then 2 else 0) +
    (if containsSub sl "from '@angular/".data || containsSub sl "from \"@angular/".data
     then 2 else 0)
  let withExt := base +
    (if ext = ".ts" ∧ containsSub (asciiLowerChars filePath.data) "component".data ∧ 0 < base
     then 1 else 0)
  withExt +
    (decorators.map fun d =>
      if d = "" then 0
      else if containsSub (asciiLowerChars d.data) "@component".data ||
              containsSub (asciiLowerChars d.data) "@ngmodule".data then 2
      else if containsSub (asciiLowerChars d.data) "@injectable".data then 1
      else 0).sum

/-- `multi_parser.py` lines 269–282: the React indicator count.  The
`['\"]react['\"]` character classes expand to the four quote combinations. -/
def reactIndicators (ext source : String) : Nat :=
  let sl := asciiLowerChars source.data
  (if regexAfter sl "import" "from 'react'" || regexAfter sl "import" "from \"react\"" ||
      regexAfter sl "import" "from 'react\"" || regexAfter sl "import" "from \"react'"
   then 2 else 0) +
  (if containsSub sl "usestate".data || containsSub sl "useeffect".data then 2 else 0) +
  (if containsSub sl "usecallback".data || containsSub sl "usememo".data then 1 else 0) +
  (if ext = ".tsx" ∨ ext = ".jsx" then 2 else 0) +
  (if containsSub sl "react.createelement".data || containsSub sl "react.component".data
   then 1 else 0) +
  (if containsSub sl "react.fc".data || containsSub sl "react.functioncomponent".data
   then 1 else 0)

/-- `multi_parser.py` lines 289–299: the Vue indicator count. -/
def vueIndicators (ext source : String) : Nat :=
  let sl := asciiLowerChars source.data
  (if ext = ".vue" then 3 else 0) +
  (if containsSub sl "definecomponent".data then 2 else 0) +
  (if containsSub sl "from 'vue'".data || containsSub sl "from \"vue\"".data ||
      containsSub sl "from 'vue\"".data || containsSub sl "from \"vue'".data then 2 else 0) +
  (if containsSub sl "<template>".data && containsSub sl "<script".data then 1 else 0) +
  (if containsSub sl "onmounted".data || containsSub sl "onunmounted".data then 1 else 0)

/-- `multi_parser.py` lines 306–330: the NestJS indicator count, including the
decorator walk. -/
def nestjsIndicators (source : String) (decorators : List String) : Nat :=
  let sl := asciiLowerChars source.data
  (if containsSub sl "@controller".data then 2 else 0) +
  (if containsSub sl "@injectable".data && !containsSub sl "@controller".data then 1 else 0) +
  (if containsSub sl "@module".data then 2 else 0) +
  (if containsSub sl "@nestjs/".data then 2 else 0) +
  (if regexAfter sl "import" "@nestjs/" then 2 else 0) +
  (decorators.map fun d =>
    if d = "" then 0
    else if containsSub (asciiLowerChars d.data) "@controller".data then 2
    else if containsSub (asciiLowerChars d.data) "@module".data then 2
    else if containsSub (asciiLowerChars d.data) "@injectable".data then 1
    else 0).sum

/-- `multi_parser.py` lines 337–343: the Next.js indicator count. -/
def nextjsIndicators (source : String) : Nat :=
  let sl := asciiLowerChars source.data
  (if containsSub sl "next/router".data || containsSub sl "next/link".data then 2 else 0) +
  (if containsSub sl "next/navigation".data then 2 else 0) +
  (if containsSub sl "userouter".data && containsSub sl "next".data then 1 else 0)

/-- `multi_parser.py` lines 350–356: the Flask indicator count. -/
def flaskIndicators (source : String) : Nat :=
  let sl := asciiLowerChars source.data
  (if containsSub sl "from flask import".data then 2 else 0) +
  (if containsSub sl "@app.route(".data then 2 else 0) +
  (if containsSub sl "flask(".data || containsSub sl "flask import".data then 1 else 0)

/-- `multi_parser.py` lines 363–369: the FastAPI indicator count. -/
def fastapiIndicators (source : String) : Nat :=
  let sl := asciiLowerChars source.data
  (if containsSub sl "from fastapi import".data then 2 else 0) +
  (if containsSub sl "@app.get(".data || containsSub sl "@app.post(".data ||
      containsSub sl "@app.put(".data || containsSub sl "@app.delete(".data then 2 else 0) +
  (if containsSub sl "@router.get(".data || containsSub sl "@router.post(".data ||
      containsSub sl "@router.put(".data || containsSub sl "@router.delete(".data
   then 2 else 0)

/-- `multi_parser.py` lines 376–384: the Spring Boot indicator count. -/
def springIndicators (source : String) : Nat :=
  let sl := asciiLowerChars source.data
  (if containsSub sl "@restcontroller".data || containsSub sl "@controller".data
   then 2 else 0) +
  (if containsSub sl "@service".data then 1 else 0) +
  (if containsSub sl "@repository".data then 1 else 0) +
  (if containsSub sl "import org.springframework".data then 2 else 0)

/-!
Confidence scores are exact decimals with two digits; every baseline, step and
cap of the source (`0.5`, `0.1`, `0.98`, `0.4`, `0.12`, `0.95`, `0.6`, `0.15`,
`0.3`) is a multiple of `0.01`, so scores are modelled exactly in hundredths
(a score of `64` is the source's `0.64`); none of the claims depends on the
binary rounding of Python floats.
-/

/-- Line 266: `min(0.5 + angular_indicators * 0.1, 0.98)`, in hundredths. -/
def angularConfidence (i : Nat) : Nat := min (50 + i * 10) 98

/-- Line 285: `min(0.4 + react_indicators * 0.12, 0.95)`, in hundredths. -/
def reactConfidence (i : Nat) : Nat := min (40 + i * 12) 95

/-- Line 302: `min(0.6 + vue_indicators * 0.1, 0.98)`, in hundredths. -/
def vueConfidence (i : Nat) : Nat := min (60 + i * 10) 98

/-- Line 333: `min(0.5 + nestjs_indicators * 0.1, 0.98)`, in hundredths. -/
def nestjsConfidence (i : Nat) : Nat := min (50 + i * 10) 98

/-- Line 346: `min(0.5 + nextjs_indicators * 0.15, 0.95)`, in hundredths. -/
def nextjsConfidence (i : Nat) : Nat := min (50 + i * 15) 95

/-- Line 359: `min(0.5 + flask_indicators * 0.15, 0.95)`, in hundredths. -/
def flaskConfidence (i : Nat) : Nat := min (50 + i * 15) 95

/-- Line 372: `min(0.5 + fastapi_indicators * 0.15, 0.95)`, in hundredths. -/
def fastapiConfidence (i : Nat) : Nat := min (50 + i * 15) 95

/-- Line 387: `min(0.5 + spring_indicators * 0.12, 0.95)`, in hundredths. -/
def springConfidence (i : Nat) : Nat := min (50 + i * 12) 95

/-- The `framework_scores` dict in insertion order: a framework is entered
exactly when its indicator count is positive. -/
def frameworkScores (ext filePath source : String) (decorators : List String) :
    List (String × Nat) :=
  (if 0 < angularIndicators ext filePath source decorators
   then [("angular", angularConfidence (angularIndicators ext filePath source decorators))]
   else []) ++
  (if 0 < reactIndicators ext source
   then [("react", reactConfidence (reactIndicators ext source))] else []) ++
  (if 0 < vueIndicators ext source
   then [("vue", vueConfidence (vueIndicators ext source))] else []) ++
  (if 0 < nestjsIndicators source decorators
   then [("nestjs", nestjsConfidence (nestjsIndicators source decorators))] else []) ++
  (if 0 < nextjsIndicators source
   then [("nextjs", nextjsConfidence (nextjsIndicators source))] else []) ++
  (if 0 < flaskIndicators source
   then [("flask", flaskConfidence (flaskIndicators source))] else []) ++
  (if 0 < fastapiIndicators source
   then [("fastapi", fastapiConfidence (fastapiIndicators source))] else []) ++
  (if 0 < springIndicators source
   then [("spring-boot", springConfidence (springIndicators source))] else [])

/-- Python `max(items, key=lambda x: x[1])`: the first item of maximal score
(later items replace the current best only when strictly greater). -/
def pickBest : List (String × Nat) → Option (String × Nat)
  | [] => none
  | x :: xs => some (xs.foldl (fun best y => if best.2 < y.2 then y else best) x)

/-- `multi_parser.py` lines 194–396 (`detect_module_framework`): empty source
gives `(None, 0.0)`; otherwise the best-scoring framework is returned exactly
when its confidence reaches the `0.3` threshold. -/
def detectModuleFramework (ext filePath source : String) (decorators : List String) :
    Option String × Nat :=
  if source = "" then (none, 0)
  else
    match pickBest (frameworkScores ext filePath source decorators) with
    | some best => if 30 ≤ best.2 then (some best.1, best.2) else (none, 0)
    | none => (none, 0)

/-- Modelled from the spec (§4.3): the claimed confidence formula
`min(baseline + 0.1·indicators, cap)`, for comparison with the code's
per-framework formulas. -/
def specConfidence (baseline cap : Nat) (indicators : Nat) : Nat :=
  min (baseline + indicators * 10) cap

/-! ## C6 — `Planner.generate_plan`, `_call_llm`, `_fallback_plan` -/

/-- Python `file_path.replace('.tsx', '.ts')`: left-to-right, non-overlapping
replacement of every occurrence. -/
def replaceTsxChars : List Char → List Char
  | '.' :: 't' :: 's' :: 'x' :: rest => '.' :: 't' :: 's' :: replaceTsxChars rest
  | c :: rest => c :: replaceTsxChars rest
  | [] => []

/-- Python `file_path.replace('.tsx', '.ts')` on strings. -/
def pyReplaceTsx (s : String) : String :=
  String.mk (replaceTsxChars s.data)

/-- Python `s.endswith(pat)`. -/
def pyEndsWith (s pat : String) : Bool :=
  isPrefixChars pat.data.reverse s.data.reverse

/-- A normalised plan task (`planner.py` lines 578–586). -/
structure PlanTask where
  taskId : Nat
  task : String
  files : List String
  changes : List String
  tests : List String
  notes : String
  estimatedTime : String
deriving DecidableEq, Repr

/-- A plan as produced by `_normalize_plan` / `_fallback_plan` (the `intent`
and `impact_summary` echo fields, which no claim concerns, are omitted). -/
structure Plan where
  planId : String
  tasks : List PlanTask
  totalEstimatedTime : String
  migrationRequired : Bool
deriving DecidableEq, Repr

/-- A raw task from the LLM's JSON, as `_normalize_plan` reads it:
each field may be absent (and a `files`/`changes`/`tests` value that is not a
list is treated as absent, per the `isinstance` checks). -/
structure RawTask where
  task : Option String
  files : Option (List String)
  changes : Option (List String)
  tests : Option (List String)
  notes : Option String
  estimatedTime : Option String
deriving DecidableEq, Repr

/-- `planner.py` lines 572–587: normalise the raw tasks; `enumerate(tasks, 1)`
numbers every entry, including non-dict entries (`none` here) that are then
skipped. -/
def normalizeTasks : Nat → List (Option RawTask) → List PlanTask
  | _, [] => []
  | i, none :: rest => normalizeTasks (i + 1) rest
  | i, some t :: rest =>
    { taskId := i
      task := t.task.getD ("Task " ++ toString i)
      files := t.files.getD []
      changes := t.changes.getD []
      tests := t.tests.getD []
      notes := t.notes.getD ""
      estimatedTime := t.estimatedTime.getD "30min" } :: normalizeTasks (i + 1) rest

/-- `planner.py` lines 589–597: the migration flag is set when the raw plan
says so or any task's notes mention migration/database/schema. -/
def migrationFromNotes (tasks : List PlanTask) : Bool :=
  tasks.any fun t =>
    pyIn "migration" (asciiLower t.notes) || pyIn "database" (asciiLower t.notes) ||
      pyIn "schema" (asciiLower t.notes)

/-- `planner.py` lines 560–610 (`_normalize_plan`); `planId` stands for the
generated `uuid4` string. -/
def normalizePlan (planId : String) (rawTasks : List (Option RawTask))
    (rawMigration : Bool) (rawTotalTime : Option String) : Plan :=
  { planId := planId
    tasks := normalizeTasks 1 rawTasks
    totalEstimatedTime :=
      rawTotalTime.getD (toString ((normalizeTasks 1 rawTasks).length * 30) ++ "min")
    migrationRequired := rawMigration || migrationFromNotes (normalizeTasks 1 rawTasks) }

/-- `planner.py` lines 362–371: the Angular extension correction applied to
one task's files. -/
def correctTaskFiles (t : PlanTask) : PlanTask :=
  { t with files := t.files.map fun f => if pyEndsWith f ".tsx" then pyReplaceTsx f else f }

/-- `planner.py` lines 357–380: after normalisation, a `.tsx → .ts` rewrite
runs over every task when the validation framework is Angular (the React
branch only logs). -/
def validatePlanExtensions (validationFramework : Option String) (p : Plan) : Plan :=
  match validationFramework with
  | some fw =>
    if asciiLower fw = "angular" then { p with tasks := p.tasks.map correctTaskFiles }
    else p
  | none => p

/-- `planner.py` lines 174–381 (`_call_llm`), reduced to its plan-shaping
effect: the LLM's parsed JSON (`rawTasks`, `rawMigration`, `rawTotalTime`) is
normalised and then extension-validated.  `validationFramework` is
`framework_type if framework_type != 'unknown' else structure_framework`
(line 359); the prompt construction does not affect the result. -/
def callLLMPlan (planId : String) (rawTasks : List (Option RawTask))
    (rawMigration : Bool) (rawTotalTime : Option String)
    (validationFramework : Option String) : Plan :=
  validatePlanExtensions validationFramework
    (normalizePlan planId rawTasks rawMigration rawTotalTime)

/-- `planner.py` lines 612–644 (`_fallback_plan` task loop): one trivial task
per impacted file (at most five), with the raw file path copied verbatim. -/
def fallbackTasks (intentDescription : String) : Nat → List String → List PlanTask
  | _, [] => []
  | i, f :: rest =>
    { taskId := i
      task := "Modify " ++ String.mk (basenameChars f.data)
      files := [f]
      changes := ["Apply changes as per intent: " ++ intentDescription]
      tests := []
      notes := ""
      estimatedTime := "30min" } :: fallbackTasks intentDescription (i + 1) rest

/-- `planner.py` lines 612–644 (`_fallback_plan`). -/
def fallbackPlan (planId intentDescription : String) (impactedFiles : List String) :
    Plan :=
  { planId := planId
    tasks := fallbackTasks intentDescription 1 (impactedFiles.take 5)
    totalEstimatedTime := toString ((impactedFiles.take 5).length * 30) ++ "min"
    migrationRequired := false }

/-- `planner.py` lines 42–68 (`generate_plan`): without an LLM (or when the
LLM path raises) the deterministic fallback runs; otherwise `_call_llm`.
`llmResult = none` covers `self.llm = None` and the exception paths. -/
def generatePlan (planId : String)
    (llmResult : Option (List (Option RawTask) × Bool × Option String))
    (validationFramework : Option String)
    (intentDescription : String) (impactedFiles : List String) : Plan :=
  match llmResult with
  | none => fallbackPlan planId intentDescription impactedFiles
  | some (rawTasks, mig, time) =>
    callLLMPlan planId rawTasks mig time validationFramework

/-! ## C8 — `CodeEditExecutor._edit_file` and `_create_file` -/

/-- The Code Validator's verdict (`validate_all`): fatal errors make
`valid = false`; warnings never do. -/
structure ValidationResult where
  valid : Bool
  errors : List String
  warnings : List String
deriving DecidableEq, Repr

/-- A working tree as the editor touches it: paths to file contents, newest
write first. -/
def fsRead (fs : List (String × String)) (path : String) : Option String :=
  (fs.find? fun e => e.1 == path).map fun e => e.2

/-- Writing a file shadows any earlier content at the same path. -/
def fsWrite (fs : List (String × String)) (path content : String) :
    List (String × String) :=
  (path, content) :: fs

/-- The per-file outcome dict of `_edit_file` / `_create_file` (the diff
string, which no claim concerns, is omitted). -/
structure EditOutcome where
  success : Bool
  errorMsg : Option String
  validation : Option ValidationResult
deriving DecidableEq, Repr

/-- Python `'; '.join(xs)`. -/
def joinSemi : List String → String
  | [] => ""
  | [x] => x
  | x :: y :: rest => x ++ "; " ++ joinSemi (y :: rest)

/-- `code_editor.py` lines 362–370: a validator exception is non-blocking and
is replaced by a passing result carrying a warning. -/
def resolveValidation (vres : Except String ValidationResult) : ValidationResult :=
  match vres with
  | .ok r => r
  | .error e => ⟨true, [], ["Validation check failed: " ++ e]⟩

/-- `code_editor.py` lines 303–396 (`_edit_file`): read the original, obtain
the LLM's `modifiedContent`, validate it, and only then write.  A missing
file raises and is caught by the outer `except` (no write); identical content
returns "No changes applied"; a validator verdict with `valid = false`
returns failure without writing; a validator exception or a passing verdict
(warnings included) lets the write proceed. -/
def editFile (fs : List (String × String)) (path modifiedContent : String)
    (vres : Except String ValidationResult) :
    EditOutcome × List (String × String) :=
  match fsRead fs path with
  | none => (⟨false, some "file read error", none⟩, fs)
  | some original =>
    if modifiedContent = original then
      (⟨false, some "No changes applied", none⟩, fs)
    else
      match vres with
      | .ok r =>
        if r.valid = false then
          (⟨false, some ("Validation failed: " ++ joinSemi r.errors), some r⟩, fs)
        else
          (⟨true, none, some r⟩, fsWrite fs path modifiedContent)
      | .error e =>
        (⟨true, none, some (resolveValidation (.error e))⟩,
          fsWrite fs path modifiedContent)

/-- `code_editor.py` lines 209–301 (`_create_file`): generate content (a
falsy result aborts), **write the file first** (lines 252–253), then run the
validator; a failing verdict is only logged ("Don't fail on validation errors
for new files") and the result still reports success. -/
def createFile (fs : List (String × String)) (path : String)
    (generatedContent : Option String) (vres : Except String ValidationResult) :
    EditOutcome × List (String × String) :=
  if generatedContent.getD "" = "" then
    (⟨false, some "Failed to generate file content", none⟩, fs)
  else
    (⟨true, none, some (resolveValidation vres)⟩,
      fsWrite fs path (generatedContent.getD ""))

/-! ## C10 — `PKGGenerator._build_symbols` run twice by `generate_pkg` -/

/-- A function record from the normalizer's `definitions["functions"]`. -/
structure GFunc where
  name : Option String
  parameters : String
  docstring : String
deriving DecidableEq, Repr

/-- A method entry, which the source accepts as a dict (whose `name` may be
absent) or a bare string. -/
inductive GMethod where
  | mdict (name : Option String)
  | mstr (name : String)
deriving DecidableEq, Repr

/-- Lines 237–243: `method.get("name")` for dicts, the value itself for
strings; only string names produce a method symbol. -/
def gmethodName : GMethod → Option String
  | .mdict n => n
  | .mstr s => some s

/-- A class record from `definitions["classes"]`. -/
structure GClass where
  name : Option String
  docstring : String
  methods : List GMethod
deriving DecidableEq, Repr

/-- An interface record from `definitions["interfaces"]`. -/
structure GIface where
  name : Option String
deriving DecidableEq, Repr

/-- The definition fields `_build_symbols` reads. -/
structure GDefs where
  functions : List GFunc
  classes : List GClass
  interfaces : List GIface
deriving DecidableEq, Repr

/-- A generator-side module: id, path, the `exports` list that
`_build_symbols` appends to, and the stored definitions. -/
structure GModule where
  id : String
  path : String
  exports : List String
  defs : GDefs
deriving DecidableEq, Repr

/-- A symbol as `_build_symbols` emits it. -/
structure GSymbol where
  id : String
  moduleId : String
  name : String
  kind : String
  isExported : Bool
  signature : String
  summary : Option String
deriving DecidableEq, Repr

/-- The `if not name: continue` guard: `None` and `""` are both falsy. -/
def truthyName : Option String → Option String
  | some n => if n = "" then none else some n
  | none => none

/-- Function symbols of one module (lines 180–207). -/
def funcSymbols (mid : String) (includeDetails : Bool) (fns : List GFunc) :
    List GSymbol :=
  fns.filterMap fun fn =>
    (truthyName fn.name).map fun n =>
      { id := generateSymbolId mid n, moduleId := mid, name := n, kind := "function",
        isExported := true, signature := n ++ "(" ++ fn.parameters ++ ")",
        summary := if includeDetails then some fn.docstring else none }

/-- Method symbols of one class (lines 234–256): never exported, never
appended to the module's exports. -/
def methodSymbols (mid clsName : String) (ms : List GMethod) : List GSymbol :=
  ms.filterMap fun mth =>
    (gmethodName mth).map fun mn =>
      { id := generateSymbolId mid (clsName ++ "." ++ mn), moduleId := mid,
        name := clsName ++ "." ++ mn, kind := "method", isExported := false,
        signature := mn ++ "()", summary := none }

/-- Class (and nested method) symbols of one module (lines 209–256). -/
def classSymbols (mid : String) (includeDetails : Bool) (cls : List GClass) :
    List GSymbol :=
  cls.flatMap fun c =>
    match truthyName c.name with
    | none => []
    | some n =>
      { id := generateSymbolId mid n, moduleId := mid, name := n, kind := "class",
        isExported := true, signature := n,
        summary := if includeDetails then some c.docstring else none } ::
        methodSymbols mid n c.methods

/-- Interface symbols of one module (lines 258–278). -/
def ifaceSymbols (mid : String) (ifs : List GIface) : List GSymbol :=
  ifs.filterMap fun i =>
    (truthyName i.name).map fun n =>
      { id := generateSymbolId mid n, moduleId := mid, name := n, kind := "interface",
        isExported := true, signature := n, summary := none }

/-- All symbols one `_build_symbols` pass emits for one module. -/
def moduleSymbols (m : GModule) (includeDetails : Bool) : List GSymbol :=
  funcSymbols m.id includeDetails m.defs.functions ++
    classSymbols m.id includeDetails m.defs.classes ++
    ifaceSymbols m.id m.defs.interfaces

/-- The symbol ids one `_build_symbols` pass appends to `module["exports"]`:
functions, classes and interfaces (with truthy names), in loop order. -/
def moduleExportIds (m : GModule) : List String :=
  (m.defs.functions.filterMap fun fn =>
    (truthyName fn.name).map (generateSymbolId m.id)) ++
  (m.defs.classes.filterMap fun c =>
    (truthyName c.name).map (generateSymbolId m.id)) ++
  (m.defs.interfaces.filterMap fun i =>
    (truthyName i.name).map (generateSymbolId m.id))

/-- One `_build_symbols(modules, fan_stats)` pass (lines 166–280): returns
the emitted symbols and the modules with the export ids **appended** to the
existing `exports` lists (the source mutates the same dicts in place and
never resets `exports`). -/
def buildSymbolsPass (modules : List GModule) (fanStats : String → Nat)
    (fanThreshold : Nat) : List GSymbol × List GModule :=
  (modules.flatMap fun m => moduleSymbols m (fanThreshold ≤ fanStats m.id),
   modules.map fun m => { m with exports := m.exports ++ moduleExportIds m })

/-- A freshly built module (`_build_modules`, line 155): `exports` starts
empty. -/
def buildModule (id path : String) (defs : GDefs) : GModule :=
  ⟨id, path, [], defs⟩

/-- The symbol-related slice of `generate_pkg` (lines 362–400): build the
modules, run `_build_symbols` with empty fan stats (line 370), extract
relationships, then run `_build_symbols` **again** with the real fan stats
(line 399) on the same module dicts; the final PKG carries the second pass's
symbols and the doubly-appended exports. -/
def generatePkgSymbols (ms : List (String × String × GDefs))
    (fanStats : String → Nat) (fanThreshold : Nat) :
    List GSymbol × List GModule :=
  (buildSymbolsPass
      (buildSymbolsPass (ms.map fun x => buildModule x.1 x.2.1 x.2.2)
          (fun _ => 0) fanThreshold).2
      fanStats fanThreshold)

end PyProc

/-! ## Theorems for C1, C3, C9 -/

open PyProc

/-- C1: the claim says `_extract_module_id` recovers the module portion
`mod:<middle>` from a generator-produced symbol ID `sym:mod:<path>:<name>`.
The code instead returns the constant `"mod:mod"`: after
`split(":", 3) = ["sym", "mod", path, name]`, it returns `"mod:" + parts[1]`
where `parts[1]` is always the literal `"mod"`.  Evaluated here at the failing
input `sym:mod:src/auth.py:login`, together with the two behaviours the claim
gets right (`mod:`-prefixed strings returned as is, anything else `None`). -/
theorem c1_extract_module_id_constant_mod :
    extractModuleId "mod:src/auth.py" = some "mod:src/auth.py" ∧
    extractModuleId (generateSymbolId "mod:src/auth.py" "login") = some "mod:mod" ∧
    extractModuleId "feat:src" = none ∧
    extractModuleId "" = none ∧
    some "mod:mod" ≠ some "mod:src/auth.py" := by
  refine ⟨rfl, rfl, rfl, rfl, by decide⟩

/-- C3: `generate_pkg` with caching enabled returns the cached document
without regenerating exactly when the cached and current git SHAs are both
present and equal; a SHA mismatch, a missing SHA on either side, or both SHAs
absent (not a git tree) all regenerate. -/
theorem c3_cache_soundness :
    (∀ (c fresh : PkgDoc) (s : String), c.gitSha = some s →
      generatePkgCacheStep true (some c) (some s) fresh = (c, false)) ∧
    (∀ (c fresh : PkgDoc) (s s' : String), c.gitSha = some s → s ≠ s' →
      generatePkgCacheStep true (some c) (some s') fresh = (fresh, true)) ∧
    (∀ (c fresh : PkgDoc) (cur : Option String), c.gitSha = none →
      generatePkgCacheStep true (some c) cur fresh = (fresh, true)) ∧
    (∀ (c fresh : PkgDoc), generatePkgCacheStep true (some c) none fresh = (fresh, true)) := by
  refine ⟨?_, ?_, ?_, ?_⟩
  · intro c fresh s hc
    simp [generatePkgCacheStep, hc]
  · intro c fresh s s' hc hne
    simp [generatePkgCacheStep, hc, hne]
  · intro c fresh cur hc
    cases cur <;> simp [generatePkgCacheStep, hc]
  · intro c fresh
    cases hc : c.gitSha <;> simp [generatePkgCacheStep, hc]

/-- Witness for C3 at concrete documents and SHAs. -/
theorem c3_cache_soundness_witness :
    generatePkgCacheStep true (some ⟨some "abc123", "cached"⟩) (some "abc123")
      ⟨some "abc123", "fresh"⟩ = (⟨some "abc123", "cached"⟩, false) ∧
    generatePkgCacheStep true (some ⟨some "abc123", "cached"⟩) (some "def456")
      ⟨some "def456", "fresh"⟩ = (⟨some "def456", "fresh"⟩, true) ∧
    generatePkgCacheStep true (some ⟨none, "cached"⟩) (some "abc123")
      ⟨some "abc123", "fresh"⟩ = (⟨some "abc123", "fresh"⟩, true) ∧
    generatePkgCacheStep true (some ⟨some "abc123", "cached"⟩) none
      ⟨none, "fresh"⟩ = (⟨none, "fresh"⟩, true) := by
  refine ⟨c3_cache_soundness.1 _ _ "abc123" rfl,
          c3_cache_soundness.2.1 _ _ "abc123" "def456" rfl (by decide),
          c3_cache_soundness.2.2.1 _ _ (some "abc123") rfl,
          c3_cache_soundness.2.2.2 _ _⟩

/-- C9: the claim says a module whose basename is `Application.java`,
`Program.cs` or `Main.cs` is returned as an entry point.  The code lower-cases
the whole path before taking the basename, so the capitalised entries of its
own pattern list can never match: `src/Application.java` is dropped while
`app.py` and `src/main.ts` are kept. -/
theorem c9_entry_points_lowercase_bug :
    getEntryPointModules
      [⟨"mod:src/Application.java", "src/Application.java"⟩,
       ⟨"mod:src/Program.cs", "src/Program.cs"⟩,
       ⟨"mod:app.py", "app.py"⟩,
       ⟨"mod:src/main.ts", "src/main.ts"⟩] =
      [⟨"mod:app.py", "app.py"⟩, ⟨"mod:src/main.ts", "src/main.ts"⟩] := by
  rfl

/-! ## Lemmas and theorems for C5 (fan-in/fan-out symmetry) -/

namespace PyProc

lemma mem_addUnique {l : List String} {x y : String} :
    y ∈ addUnique l x ↔ y ∈ l ∨ y = x := by
  by_cases h : x ∈ l
  · simp only [addUnique, if_pos h]
    constructor
    · exact Or.inl
    · rintro (hy | rfl)
      · exact hy
      · exact h
  · simp [addUnique, if_neg h]

lemma depStep_snd_mem (M : String) (acc : List String × List String) (e : QEdge)
    (y : String) : y ∈ (depStep M acc e).2 ↔ y ∈ acc.2 ∨ EdgeCallee M y e := by
  cases hep : edgeEndpoints e with
  | none =>
    simp only [depStep, hep]
    constructor
    · exact Or.inl
    · rintro (hy | ⟨f, t, hft, -, -⟩)
      · exact hy
      · rw [hep] at hft
        cases hft
  | some ft =>
    obtain ⟨f, t⟩ := ft
    simp only [depStep, hep]
    by_cases h1 : extractModuleId f = some M ∧ (extractModuleId t).isSome
    · rw [if_pos h1]
      obtain ⟨h1a, h1b⟩ := h1
      obtain ⟨v, hv⟩ := Option.isSome_iff_exists.mp h1b
      simp only [hv, Option.getD_some, mem_addUnique]
      constructor
      · rintro (hy | rfl)
        · exact Or.inl hy
        · exact Or.inr ⟨f, t, hep, h1a, hv⟩
      · rintro (hy | ⟨f', t', hft, hf', ht'⟩)
        · exact Or.inl hy
        · rw [hep] at hft
          injection hft with hft'
          injection hft' with hf0 ht0
          subst hf0; subst ht0
          rw [hv] at ht'
          exact Or.inr (Option.some.inj ht').symm
    · rw [if_neg h1]
      have hnc : ¬ EdgeCallee M y e := by
        rintro ⟨f', t', hft, hf', ht'⟩
        rw [hep] at hft
        injection hft with hft'
        injection hft' with hf0 ht0
        subst hf0; subst ht0
        exact h1 ⟨hf', ht' ▸ rfl⟩
      split
      · constructor
        · exact Or.inl
        · rintro (hy | hce)
          · exact hy
          · exact absurd hce hnc
      · constructor
        · exact Or.inl
        · rintro (hy | hce)
          · exact hy
          · exact absurd hce hnc

lemma depStep_fst_mem (M : String) (acc : List String × List String) (e : QEdge)
    (x : String) : x ∈ (depStep M acc e).1 ↔ x ∈ acc.1 ∨ EdgeCaller M x e := by
  cases hep : edgeEndpoints e with
  | none =>
    simp only [depStep, hep]
    constructor
    · exact Or.inl
    · rintro (hx | ⟨f, t, hft, -, -, -⟩)
      · exact hx
      · rw [hep] at hft
        cases hft
  | some ft =>
    obtain ⟨f, t⟩ := ft
    simp only [depStep, hep]
    by_cases h1 : extractModuleId f = some M ∧ (extractModuleId t).isSome
    · rw [if_pos h1]
      have hnc : ¬ EdgeCaller M x e := by
        rintro ⟨f', t', hft, hneg, -, -⟩
        rw [hep] at hft
        injection hft with hft'
        injection hft' with hf0 ht0
        subst hf0; subst ht0
        exact hneg h1
      constructor
      · exact Or.inl
      · rintro (hx | hce)
        · exact hx
        · exact absurd hce hnc
    · rw [if_neg h1]
      by_cases h2 : extractModuleId t = some M ∧ (extractModuleId f).isSome
      · rw [if_pos h2]
        obtain ⟨h2a, h2b⟩ := h2
        obtain ⟨v, hv⟩ := Option.isSome_iff_exists.mp h2b
        simp only [hv, Option.getD_some, mem_addUnique]
        constructor
        · rintro (hx | rfl)
          · exact Or.inl hx
          · exact Or.inr ⟨f, t, hep, h1, h2a, hv⟩
        · rintro (hx | ⟨f', t', hft, -, -, hf'⟩)
          · exact Or.inl hx
          · rw [hep] at hft
            injection hft with hft'
            injection hft' with hf0 ht0
            subst hf0; subst ht0
            rw [hv] at hf'
            exact Or.inr (Option.some.inj hf').symm
      · rw [if_neg h2]
        have hnc : ¬ EdgeCaller M x e := by
          rintro ⟨f', t', hft, -, ht', hf'⟩
          rw [hep] at hft
          injection hft with hft'
          injection hft' with hf0 ht0
          subst hf0; subst ht0
          exact h2 ⟨ht', hf' ▸ rfl⟩
        constructor
        · exact Or.inl
        · rintro (hx | hce)
          · exact hx
          · exact absurd hce hnc

lemma foldl_depStep_snd_mem (M : String) (edges : List QEdge)
    (acc : List String × List String) (y : String) :
    y ∈ (edges.foldl (depStep M) acc).2 ↔
      y ∈ acc.2 ∨ ∃ e ∈ edges, EdgeCallee M y e := by
  induction edges generalizing acc with
  | nil => simp
  | cons e es ih =>
    rw [List.foldl_cons, ih, depStep_snd_mem]
    simp only [List.mem_cons]
    constructor
    · rintro ((hy | hce) | ⟨e', he', hce'⟩)
      · exact Or.inl hy
      · exact Or.inr ⟨e, Or.inl rfl, hce⟩
      · exact Or.inr ⟨e', Or.inr he', hce'⟩
    · rintro (hy | ⟨e', (rfl | he'), hce'⟩)
      · exact Or.inl (Or.inl hy)
      · exact Or.inl (Or.inr hce')
      · exact Or.inr ⟨e', he', hce'⟩

lemma foldl_depStep_fst_mem (M : String) (edges : List QEdge)
    (acc : List String × List String) (x : String) :
    x ∈ (edges.foldl (depStep M) acc).1 ↔
      x ∈ acc.1 ∨ ∃ e ∈ edges, EdgeCaller M x e := by
  induction edges generalizing acc with
  | nil => simp
  | cons e es ih =>
    rw [List.foldl_cons, ih, depStep_fst_mem]
    simp only [List.mem_cons]
    constructor
    · rintro ((hx | hce) | ⟨e', he', hce'⟩)
      · exact Or.inl hx
      · exact Or.inr ⟨e, Or.inl rfl, hce⟩
      · exact Or.inr ⟨e', Or.inr he', hce'⟩
    · rintro (hx | ⟨e', (rfl | he'), hce'⟩)
      · exact Or.inl (Or.inl hx)
      · exact Or.inl (Or.inr hce')
      · exact Or.inr ⟨e', he', hce'⟩

lemma exists_mem_filterMap_moduleById (modules : List QModule) (l : List String)
    (y : String) :
    (∃ m ∈ l.filterMap (moduleById modules), m.id = y) ↔
      y ∈ l ∧ ∃ mm ∈ modules, mm.id = y := by
  constructor
  · rintro ⟨m, hm, rfl⟩
    rw [List.mem_filterMap] at hm
    obtain ⟨a, ha, hfind⟩ := hm
    have hid : m.id = a := by simpa using List.find?_some hfind
    have hmem : m ∈ modules := by
      simpa using List.mem_of_find?_eq_some hfind
    exact ⟨hid ▸ ha, m, hmem, rfl⟩
  · rintro ⟨hyl, mm, hmm, rfl⟩
    have hsome : (modules.reverse.find? fun m => m.id == mm.id).isSome := by
      rw [List.find?_isSome]
      exact ⟨mm, by simpa using hmm, by simp⟩
    obtain ⟨m, hfind⟩ := Option.isSome_iff_exists.mp hsome
    have hid : m.id = mm.id := by simpa using List.find?_some hfind
    exact ⟨m, List.mem_filterMap.mpr ⟨mm.id, hyl, hfind⟩, hid⟩

end PyProc

/-- C5 (amended): for every PKG queried on the in-memory path and every pair
of modules `A ≠ B` (by id) both present in the module list, `B` is among the
callees of `get_dependencies(A)` iff `A` is among the callers of
`get_dependencies(B)`.  (The unamended claim fails when `A = B`: a self-edge
reaches only the callee branch of the `if`/`elif`, see the counterexample.) -/
theorem c5_fanin_fanout_symmetry (modules : List PyProc.QModule)
    (edges : List PyProc.QEdge) (A B : PyProc.QModule)
    (hA : A ∈ modules) (hB : B ∈ modules) (hne : A.id ≠ B.id) :
    ((∃ m ∈ (PyProc.getDependencies modules edges A.id).callees, m.id = B.id) ↔
     (∃ m ∈ (PyProc.getDependencies modules edges B.id).callers, m.id = A.id)) := by
  have hAex : ∃ mm ∈ modules, mm.id = A.id := ⟨A, hA, rfl⟩
  have hBex : ∃ mm ∈ modules, mm.id = B.id := ⟨B, hB, rfl⟩
  have key : ∀ e : PyProc.QEdge,
      PyProc.EdgeCallee A.id B.id e ↔ PyProc.EdgeCaller B.id A.id e := by
    intro e
    constructor
    · rintro ⟨f, t, hep, hf, ht⟩
      refine ⟨f, t, hep, ?_, ht, hf⟩
      rintro ⟨hf', _⟩
      rw [hf] at hf'
      exact hne (Option.some.inj hf')
    · rintro ⟨f, t, hep, _, ht, hf⟩
      exact ⟨f, t, hep, hf, ht⟩
  simp only [PyProc.getDependencies]
  rw [PyProc.exists_mem_filterMap_moduleById, PyProc.exists_mem_filterMap_moduleById]
  unfold PyProc.depSets
  rw [PyProc.foldl_depStep_snd_mem, PyProc.foldl_depStep_fst_mem]
  simp only [List.not_mem_nil, false_or]
  constructor
  · rintro ⟨⟨e, he, hce⟩, _⟩
    exact ⟨⟨e, he, (key e).mp hce⟩, hAex⟩
  · rintro ⟨⟨e, he, hcr⟩, _⟩
    exact ⟨⟨e, he, (key e).mpr hcr⟩, hBex⟩

/-- Witness for C5 at a two-module PKG with one `imports` edge. -/
theorem c5_fanin_fanout_symmetry_witness :
    ((∃ m ∈ (PyProc.getDependencies
        [⟨"mod:a", "a.py"⟩, ⟨"mod:b", "b.py"⟩]
        [⟨some "mod:a", some "mod:b", "imports"⟩] "mod:a").callees, m.id = "mod:b") ↔
     (∃ m ∈ (PyProc.getDependencies
        [⟨"mod:a", "a.py"⟩, ⟨"mod:b", "b.py"⟩]
        [⟨some "mod:a", some "mod:b", "imports"⟩] "mod:b").callers, m.id = "mod:a")) :=
  c5_fanin_fanout_symmetry
    [⟨"mod:a", "a.py"⟩, ⟨"mod:b", "b.py"⟩]
    [⟨some "mod:a", some "mod:b", "imports"⟩]
    ⟨"mod:a", "a.py"⟩ ⟨"mod:b", "b.py"⟩
    (by decide) (by decide) (by decide)

/-- Counterexample to C5 as stated: with a single self-edge
`mod:a → mod:a`, the module is its own callee but not its own caller, so the
claimed equivalence fails for the pair `A = B = mod:a`. -/
theorem c5_self_edge_counterexample :
    (∃ m ∈ (PyProc.getDependencies [⟨"mod:a", "a.py"⟩]
        [⟨some "mod:a", some "mod:a", "imports"⟩] "mod:a").callees, m.id = "mod:a") ∧
    ¬(∃ m ∈ (PyProc.getDependencies [⟨"mod:a", "a.py"⟩]
        [⟨some "mod:a", some "mod:a", "imports"⟩] "mod:a").callers, m.id = "mod:a") := by
  decide

/-! ## Lemmas and theorems for C7 (framework detection) -/

namespace PyProc

lemma foldlBest_mem (x : String × Nat) (xs : List (String × Nat)) :
    xs.foldl (fun best y => if best.2 < y.2 then y else best) x ∈ x :: xs := by
  induction xs generalizing x with
  | nil => simp
  | cons y ys ih =>
    rw [List.foldl_cons]
    rcases List.mem_cons.mp (ih (if x.2 < y.2 then y else x)) with h1 | h1
    · rw [h1]
      split
      · exact List.mem_cons_of_mem _ (List.mem_cons_self _ _)
      · exact List.mem_cons_self _ _
    · exact List.mem_cons_of_mem _ (List.mem_cons_of_mem _ h1)

lemma foldlBest_ge (x : String × Nat) (xs : List (String × Nat)) :
    ∀ z ∈ x :: xs, z.2 ≤ (xs.foldl (fun best y => if best.2 < y.2 then y else best) x).2 := by
  induction xs generalizing x with
  | nil =>
    intro z hz
    rcases List.mem_cons.mp hz with rfl | h
    · exact le_rfl
    · cases h
  | cons y ys ih =>
    intro z hz
    rw [List.foldl_cons]
    have hx : x.2 ≤ (if x.2 < y.2 then y else x).2 := by
      split
      · exact le_of_lt (by assumption)
      · exact le_rfl
    have hy : y.2 ≤ (if x.2 < y.2 then y else x).2 := by
      split
      · exact le_rfl
      · exact le_of_not_lt (by assumption)
    rcases List.mem_cons.mp hz with rfl | hz'
    · exact le_trans hx (ih _ _ (List.mem_cons_self _ _))
    · rcases List.mem_cons.mp hz' with rfl | hz''
      · exact le_trans hy (ih _ _ (List.mem_cons_self _ _))
      · exact ih _ z (List.mem_cons_of_mem _ hz'')

lemma pickBest_spec {l : List (String × Nat)} {b : String × Nat}
    (h : pickBest l = some b) : b ∈ l ∧ ∀ z ∈ l, z.2 ≤ b.2 := by
  cases l with
  | nil => cases h
  | cons x xs =>
    simp only [pickBest, Option.some.injEq] at h
    subst h
    exact ⟨foldlBest_mem x xs, foldlBest_ge x xs⟩

end PyProc

/-- C7 (amended): the per-framework confidences are
`min(baseline + step·indicators, cap)` (scores in hundredths) with the
baselines and caps the claim states for Vue, Angular and NestJS and a step of
`0.1`; React however uses a step of `0.12` (`min(0.4 + 0.12·i, 0.95)`), not
the claimed `0.1`.  The detector returns the highest-scoring candidate
framework exactly when its confidence is at least `0.3`. -/
theorem c7_confidence_formula_and_threshold :
    (∀ i : Nat, PyProc.angularConfidence i = PyProc.specConfidence 50 98 i) ∧
    (∀ i : Nat, PyProc.vueConfidence i = PyProc.specConfidence 60 98 i) ∧
    (∀ i : Nat, PyProc.nestjsConfidence i = PyProc.specConfidence 50 98 i) ∧
    (∀ i : Nat, PyProc.reactConfidence i = min (40 + i * 12) 95) ∧
    (∀ ext fp src decs fw c,
      PyProc.detectModuleFramework ext fp src decs = (some fw, c) →
        (fw, c) ∈ PyProc.frameworkScores ext fp src decs ∧ 30 ≤ c ∧
        ∀ z ∈ PyProc.frameworkScores ext fp src decs, z.2 ≤ c) ∧
    (∀ ext fp src decs b,
      src ≠ "" → PyProc.pickBest (PyProc.frameworkScores ext fp src decs) = some b →
        30 ≤ b.2 → PyProc.detectModuleFramework ext fp src decs = (some b.1, b.2)) := by
  refine ⟨fun i => rfl, fun i => rfl, fun i => rfl, fun i => rfl, ?_, ?_⟩
  · intro ext fp src decs fw c h
    by_cases hsrc : src = ""
    · simp only [PyProc.detectModuleFramework, if_pos hsrc] at h
      cases h
    · cases hpb : PyProc.pickBest (PyProc.frameworkScores ext fp src decs) with
      | none =>
        simp only [PyProc.detectModuleFramework, if_neg hsrc, hpb] at h
        cases h
      | some best =>
        simp only [PyProc.detectModuleFramework, if_neg hsrc, hpb] at h
        by_cases h30 : 30 ≤ best.2
        · rw [if_pos h30] at h
          injection h with h1 h2
          obtain ⟨hmem, hge⟩ := PyProc.pickBest_spec hpb
          have hb : (fw, c) = best := by
            rw [← Option.some.inj h1, ← h2]
          rw [hb]
          exact ⟨hmem, h2 ▸ h30, fun z hz => h2 ▸ hge z hz⟩
        · rw [if_neg h30] at h
          cases h
  · intro ext fp src decs b hsrc hpb h30
    simp only [PyProc.detectModuleFramework, if_neg hsrc, hpb, if_pos h30]

/-- Witness for C7's selection characterisation at a concrete `.tsx` file. -/
theorem c7_confidence_formula_and_threshold_witness :
    (("react", 64) ∈ PyProc.frameworkScores ".tsx" "src/App.tsx" "x" [] ∧ 30 ≤ 64 ∧
      ∀ z ∈ PyProc.frameworkScores ".tsx" "src/App.tsx" "x" [], z.2 ≤ 64) ∧
    PyProc.detectModuleFramework ".tsx" "src/App.tsx" "x" [] = (some "react", 64) :=
  ⟨c7_confidence_formula_and_threshold.2.2.2.2.1 ".tsx" "src/App.tsx" "x" [] "react" 64
      (by decide),
   c7_confidence_formula_and_threshold.2.2.2.2.2 ".tsx" "src/App.tsx" "x" [] ("react", 64)
      (by decide) (by decide) (by decide)⟩

/-- Counterexample to C7 as stated: a one-character `.tsx` source has exactly
the two extension indicators for React, and the detector reports confidence
`0.64 = 0.4 + 2·0.12`, not the claimed `min(0.4 + 0.1·2, cap) = 0.6`. -/
theorem c7_react_step_counterexample :
    PyProc.detectModuleFramework ".tsx" "src/App.tsx" "x" [] = (some "react", 64) ∧
    PyProc.reactIndicators ".tsx" "x" = 2 ∧
    (64 : Nat) ≠ PyProc.specConfidence 40 95 2 := by
  decide

/-! ## Lemmas and theorems for C6 (Angular extension enforcement) -/

namespace PyProc

lemma isPrefixChars_iff (p s : List Char) : isPrefixChars p s = true ↔ p <+: s := by
  induction p generalizing s with
  | nil => simp [isPrefixChars]
  | cons a as ih =>
    cases s with
    | nil =>
      simp only [isPrefixChars, Bool.false_eq_true, false_iff]
      exact fun h => by simpa using h.length_le
    | cons b bs =>
      simp only [isPrefixChars, Bool.and_eq_true, beq_iff_eq, ih, List.cons_prefix_cons]

lemma pyEndsWith_iff (s pat : String) : pyEndsWith s pat = true ↔ pat.data <:+ s.data := by
  rw [pyEndsWith, isPrefixChars_iff, List.reverse_prefix]

lemma replaceTsx_suffix (s : List Char) :
    ['.', 't', 's', 'x'] <:+ s → ['.', 't', 's'] <:+ replaceTsxChars s := by
  induction s using replaceTsxChars.induct with
  | case1 rest ih =>
    intro h
    rw [replaceTsxChars.eq_1]
    rcases List.suffix_cons_iff.mp h with heq | h1
    · injection heq with h1 h2
      injection h2 with h3 h4
      injection h4 with h5 h6
      injection h6 with h7 h8
      subst h8
      simp [replaceTsxChars]
    · rcases List.suffix_cons_iff.mp h1 with heq | h2
      · injection heq with hc _
        exact absurd hc (by decide)
      · rcases List.suffix_cons_iff.mp h2 with heq | h3
        · injection heq with hc _
          exact absurd hc (by decide)
        · rcases List.suffix_cons_iff.mp h3 with heq | h4
          · injection heq with hc _
            exact absurd hc (by decide)
          · exact (ih h4).trans (((List.suffix_cons 's' _).trans
              (List.suffix_cons 't' _)).trans (List.suffix_cons '.' _))
  | case2 c rest hne ih =>
    intro h
    rw [replaceTsxChars.eq_2 c rest hne]
    rcases List.suffix_cons_iff.mp h with heq | h1
    · injection heq with hc hrest
      exact (hne [] hc.symm hrest.symm).elim
    · exact (ih h1).trans (List.suffix_cons c _)
  | case3 =>
    intro h
    have := List.suffix_nil.mp h
    cases this

lemma suffix_ts_not_tsx {l : List Char} (h : ['.', 't', 's'] <:+ l) :
    ¬ (['.', 't', 's', 'x'] <:+ l) := by
  rintro ⟨v, hv⟩
  obtain ⟨u, hu⟩ := h
  have heq : u ++ ['.', 't', 's'] = v ++ ['.', 't', 's', 'x'] := by rw [hu, hv]
  have hr := congrArg List.reverse heq
  simp only [List.reverse_append, List.reverse_cons, List.reverse_nil, List.nil_append,
    List.append_assoc, List.cons_append] at hr
  injection hr with hc _
  exact absurd hc (by decide)

lemma pyEndsWith_replaceTsx_false (f : String) (h : pyEndsWith f ".tsx" = true) :
    pyEndsWith (pyReplaceTsx f) ".tsx" = false := by
  rw [pyEndsWith_iff] at h
  have hts : ['.', 't', 's'] <:+ replaceTsxChars f.data := replaceTsx_suffix f.data h
  have : ¬ ((".tsx" : String).data <:+ (pyReplaceTsx f).data) := by
    show ¬ (['.', 't', 's', 'x'] <:+ (pyReplaceTsx f).data)
    exact suffix_ts_not_tsx hts
  cases hb : pyEndsWith (pyReplaceTsx f) ".tsx"
  · rfl
  · exact absurd ((pyEndsWith_iff _ _).mp hb) this

end PyProc

/-- C6 (amended): on the LLM path (`_call_llm`), when the validation
framework is Angular every `.tsx` entry in a task's files is rewritten with
`replace('.tsx', '.ts')`, and afterwards no entry of any task's files ends in
`.tsx`.  The deterministic fallback (`_fallback_plan`), used when no LLM is
available, copies impacted file paths verbatim and applies no extension
validation, so the claim's inclusion of the fallback fails (see the
counterexample). -/
theorem c6_angular_extension_enforcement (planId : String)
    (rawTasks : List (Option PyProc.RawTask)) (rawMigration : Bool)
    (rawTotalTime : Option String) (fw : String)
    (hfw : PyProc.asciiLower fw = "angular") :
    ∀ t ∈ (PyProc.callLLMPlan planId rawTasks rawMigration rawTotalTime (some fw)).tasks,
      ∀ f ∈ t.files, PyProc.pyEndsWith f ".tsx" = false := by
  intro t ht f hf
  simp only [PyProc.callLLMPlan, PyProc.validatePlanExtensions] at ht
  rw [if_pos hfw] at ht
  simp only [List.mem_map] at ht
  obtain ⟨t₀, -, rfl⟩ := ht
  unfold PyProc.correctTaskFiles at hf
  simp only [List.mem_map] at hf
  obtain ⟨f₀, -, rfl⟩ := hf
  by_cases h0 : PyProc.pyEndsWith f₀ ".tsx" = true
  · rw [if_pos h0]
    exact PyProc.pyEndsWith_replaceTsx_false f₀ h0
  · rw [if_neg h0]
    exact Bool.not_eq_true _ ▸ h0

/-- Witness for C6 at a concrete Angular plan whose LLM output contains a
`.tsx` file: after validation the file list holds `src/components/Login.ts`. -/
theorem c6_angular_extension_enforcement_witness :
    (∀ t ∈ (PyProc.callLLMPlan "p1"
        [some ⟨some "Add login", some ["src/components/Login.tsx"], some ["add form"],
              some [], some "", some "1h"⟩]
        false none (some "Angular")).tasks,
      ∀ f ∈ t.files, PyProc.pyEndsWith f ".tsx" = false) ∧
    (PyProc.callLLMPlan "p1"
        [some ⟨some "Add login", some ["src/components/Login.tsx"], some ["add form"],
              some [], some "", some "1h"⟩]
        false none (some "Angular")).tasks.map PyProc.PlanTask.files =
      [["src/components/Login.ts"]] :=
  ⟨c6_angular_extension_enforcement "p1"
      [some ⟨some "Add login", some ["src/components/Login.tsx"], some ["add form"],
            some [], some "", some "1h"⟩]
      false none "Angular" (by decide),
   by decide⟩

/-- Counterexample to C6 as stated: with no LLM available, `generate_plan`
falls back to `_fallback_plan`, which copies the impacted `.tsx` path into the
task unrewritten even though the detected framework is Angular. -/
theorem c6_fallback_counterexample :
    ∃ t ∈ (PyProc.generatePlan "p1" none (some "angular") "add login"
        ["src/components/Login.tsx"]).tasks,
      ∃ f ∈ t.files, PyProc.pyEndsWith f ".tsx" = true := by
  decide

/-! ## Theorems for C8 (validation gates writes) -/

/-- C8 (amended): for edits of existing files, a validator verdict with
`valid = false` blocks the write — the working tree is unchanged and the
per-file result is a failure carrying the validation record — while a passing
verdict (its warnings merely recorded) lets the write proceed.  For newly
created files the claim fails: the content is written before validation and a
failing verdict is only logged (see the counterexample). -/
theorem c8_validator_blocks_edit_writes :
    (∀ (fs : List (String × String)) (path modified : String)
        (r : PyProc.ValidationResult), r.valid = false →
      (PyProc.editFile fs path modified (Except.ok r)).2 = fs ∧
      (PyProc.editFile fs path modified (Except.ok r)).1.success = false) ∧
    (∀ (fs : List (String × String)) (path modified original : String)
        (r : PyProc.ValidationResult),
      PyProc.fsRead fs path = some original → modified ≠ original → r.valid = true →
      (PyProc.editFile fs path modified (Except.ok r)).2 =
        PyProc.fsWrite fs path modified ∧
      (PyProc.editFile fs path modified (Except.ok r)).1.validation = some r ∧
      (PyProc.editFile fs path modified (Except.ok r)).1.success = true) := by
  constructor
  · intro fs path modified r hr
    cases hread : PyProc.fsRead fs path with
    | none => simp [PyProc.editFile, hread]
    | some original =>
      by_cases heq : modified = original
      · simp [PyProc.editFile, hread, heq]
      · simp [PyProc.editFile, hread, heq, hr]
  · intro fs path modified original r hread hne hr
    have hr' : ¬ r.valid = false := by simp [hr]
    simp [PyProc.editFile, hread, hne, hr']

/-- Witness for C8: a fatal verdict leaves `a.py` holding its original
content and reports failure; a warning-only verdict writes the new content
and records the warning. -/
theorem c8_validator_blocks_edit_writes_witness :
    ((PyProc.editFile [("a.py", "old")] "a.py" "new"
        (Except.ok ⟨false, ["bad syntax"], []⟩)).2 = [("a.py", "old")] ∧
     (PyProc.editFile [("a.py", "old")] "a.py" "new"
        (Except.ok ⟨false, ["bad syntax"], []⟩)).1.success = false) ∧
    ((PyProc.editFile [("a.py", "old")] "a.py" "new"
        (Except.ok ⟨true, [], ["unused import"]⟩)).2 =
        PyProc.fsWrite [("a.py", "old")] "a.py" "new" ∧
     (PyProc.editFile [("a.py", "old")] "a.py" "new"
        (Except.ok ⟨true, [], ["unused import"]⟩)).1.validation =
        some ⟨true, [], ["unused import"]⟩ ∧
     (PyProc.editFile [("a.py", "old")] "a.py" "new"
        (Except.ok ⟨true, [], ["unused import"]⟩)).1.success = true) :=
  ⟨c8_validator_blocks_edit_writes.1 [("a.py", "old")] "a.py" "new"
      ⟨false, ["bad syntax"], []⟩ rfl,
   c8_validator_blocks_edit_writes.2 [("a.py", "old")] "a.py" "new" "old"
      ⟨true, [], ["unused import"]⟩ (by decide) (by decide) rfl⟩

/-- Counterexample to C8 as stated: `_create_file` writes the generated
content to disk before validating it, so a fatal verdict (`valid = false`)
does not block the write of a newly created task file, and the per-file
result still reports success. -/
theorem c8_create_writes_despite_fatal_errors :
    (PyProc.createFile [] "app/login.py" (some "bad code")
        (Except.ok ⟨false, ["syntax error"], []⟩)).1.success = true ∧
    PyProc.fsRead (PyProc.createFile [] "app/login.py" (some "bad code")
        (Except.ok ⟨false, ["syntax error"], []⟩)).2 "app/login.py" =
      some "bad code" := by
  decide

/-! ## Lemmas and theorems for C10 (exports appended twice) -/

namespace PyProc

lemma generatePkgSymbols_modules_eq (ms : List (String × String × GDefs))
    (fanStats : String → Nat) (thr : Nat) :
    (generatePkgSymbols ms fanStats thr).2 =
      ms.map fun x =>
        ⟨x.1, x.2.1,
         moduleExportIds (buildModule x.1 x.2.1 x.2.2) ++
           moduleExportIds (buildModule x.1 x.2.1 x.2.2),
         x.2.2⟩ := by
  simp only [generatePkgSymbols, buildSymbolsPass, List.map_map]
  rfl

lemma export_has_symbol (m : GModule) (incl : Bool) (sid : String)
    (h : sid ∈ moduleExportIds m) :
    ∃ s ∈ moduleSymbols m incl, s.id = sid ∧ s.moduleId = m.id ∧
      s.isExported = true := by
  unfold moduleExportIds at h
  rcases List.mem_append.mp h with hab | hifc
  · rcases List.mem_append.mp hab with h | h
    · rw [List.mem_filterMap] at h
      obtain ⟨fn, hfn, hmap⟩ := h
      obtain ⟨n, hn, hid⟩ := Option.map_eq_some'.mp hmap
      have hmem : ({ id := generateSymbolId m.id n, moduleId := m.id, name := n,
                     kind := "function", isExported := true,
                     signature := n ++ "(" ++ fn.parameters ++ ")",
                     summary := if incl then some fn.docstring else none } :
            GSymbol) ∈ funcSymbols m.id incl m.defs.functions := by
        rw [funcSymbols, List.mem_filterMap]
        exact ⟨fn, hfn, by rw [hn]; rfl⟩
      exact ⟨_, List.mem_append.mpr (Or.inl (List.mem_append.mpr (Or.inl hmem))),
        hid, rfl, rfl⟩
    · rw [List.mem_filterMap] at h
      obtain ⟨c, hc, hmap⟩ := h
      obtain ⟨n, hn, hid⟩ := Option.map_eq_some'.mp hmap
      have hmem : ({ id := generateSymbolId m.id n, moduleId := m.id, name := n,
                     kind := "class", isExported := true, signature := n,
                     summary := if incl then some c.docstring else none } :
            GSymbol) ∈ classSymbols m.id incl m.defs.classes := by
        rw [classSymbols, List.mem_flatMap]
        refine ⟨c, hc, ?_⟩
        rw [hn]
        exact List.mem_cons_self _ _
      exact ⟨_, List.mem_append.mpr (Or.inl (List.mem_append.mpr (Or.inr hmem))),
        hid, rfl, rfl⟩
  · rw [List.mem_filterMap] at hifc
    obtain ⟨i, hi, hmap⟩ := hifc
    obtain ⟨n, hn, hid⟩ := Option.map_eq_some'.mp hmap
    have hmem : ({ id := generateSymbolId m.id n, moduleId := m.id, name := n,
                   kind := "interface", isExported := true, signature := n,
                   summary := none } : GSymbol) ∈
          ifaceSymbols m.id m.defs.interfaces := by
      rw [ifaceSymbols, List.mem_filterMap]
      exact ⟨i, hi, by rw [hn]; rfl⟩
    exact ⟨_, List.mem_append.mpr (Or.inr hmem), hid, rfl, rfl⟩

lemma final_symbol_mem (ms : List (String × String × GDefs))
    (fanStats : String → Nat) (thr : Nat) (x : String × String × GDefs)
    (hx : x ∈ ms) (s : GSymbol)
    (hs : s ∈ moduleSymbols (buildModule x.1 x.2.1 x.2.2) (thr ≤ fanStats x.1)) :
    s ∈ (generatePkgSymbols ms fanStats thr).1 := by
  simp only [generatePkgSymbols, buildSymbolsPass]
  rw [List.mem_flatMap]
  refine ⟨⟨x.1, x.2.1,
    [] ++ moduleExportIds (buildModule x.1 x.2.1 x.2.2), x.2.2⟩, ?_, ?_⟩
  · rw [List.map_map, List.mem_map]
    exact ⟨x, hx, rfl⟩
  · exact hs

end PyProc

/-- C10: after `generate_pkg` runs `_build_symbols` once before and once
after relationship extraction, every module's `exports` list is the
single-pass export-id list appended to itself, so the id of each exported
symbol (function, class or interface) occurs twice per occurrence of its name
— exactly twice when the module's exported names are distinct — and every
entry of `exports` is the id of a symbol of the final symbol list whose
`moduleId` is that module. -/
theorem c10_exports_appended_twice (ms : List (String × String × PyProc.GDefs))
    (fanStats : String → Nat) (thr : Nat) :
    ∀ m ∈ (PyProc.generatePkgSymbols ms fanStats thr).2,
      m.exports = PyProc.moduleExportIds m ++ PyProc.moduleExportIds m ∧
      (∀ sid, m.exports.count sid = 2 * (PyProc.moduleExportIds m).count sid) ∧
      ((PyProc.moduleExportIds m).Nodup →
        ∀ sid ∈ PyProc.moduleExportIds m, m.exports.count sid = 2) ∧
      (∀ sid ∈ m.exports, ∃ s ∈ (PyProc.generatePkgSymbols ms fanStats thr).1,
        s.id = sid ∧ s.moduleId = m.id ∧ s.isExported = true) := by
  intro m hm
  rw [PyProc.generatePkgSymbols_modules_eq, List.mem_map] at hm
  obtain ⟨x, hx, rfl⟩ := hm
  have hexp : PyProc.moduleExportIds
      (⟨x.1, x.2.1,
        PyProc.moduleExportIds (PyProc.buildModule x.1 x.2.1 x.2.2) ++
          PyProc.moduleExportIds (PyProc.buildModule x.1 x.2.1 x.2.2),
        x.2.2⟩ : PyProc.GModule) =
      PyProc.moduleExportIds (PyProc.buildModule x.1 x.2.1 x.2.2) := rfl
  refine ⟨by rw [hexp], ?_, ?_, ?_⟩
  · intro sid
    simp only [hexp, List.count_append]
    omega
  · intro hnd sid hsid
    simp only [hexp] at hsid hnd ⊢
    have h1 := List.count_eq_one_of_mem hnd hsid
    simp only [List.count_append, h1]
  · intro sid hsid
    simp only [hexp] at hsid
    have hsid' : sid ∈ PyProc.moduleExportIds (PyProc.buildModule x.1 x.2.1 x.2.2) := by
      rcases List.mem_append.mp hsid with h | h <;> exact h
    obtain ⟨s, hs, hsp⟩ := PyProc.export_has_symbol
      (PyProc.buildModule x.1 x.2.1 x.2.2) (thr ≤ fanStats x.1) sid hsid'
    exact ⟨s, PyProc.final_symbol_mem ms fanStats thr x hx s hs, hsp⟩

/-- The one-module input used by the C10 witness: one function, one class
with a method, and one interface. -/
def c10Input : List (String × String × PyProc.GDefs) :=
  [("mod:a.py", "a.py",
    ⟨[⟨some "f", "x", "doc f"⟩],
     [⟨some "C", "doc C", [PyProc.GMethod.mstr "run"]⟩],
     [⟨some "I"⟩]⟩)]

/-- The module record `generate_pkg` produces for `c10Input`: each of the
three exported ids appears twice in `exports`. -/
def c10Module : PyProc.GModule :=
  { id := "mod:a.py", path := "a.py",
    exports := ["sym:mod:a.py:f", "sym:mod:a.py:C", "sym:mod:a.py:I",
                "sym:mod:a.py:f", "sym:mod:a.py:C", "sym:mod:a.py:I"],
    defs := ⟨[⟨some "f", "x", "doc f"⟩],
             [⟨some "C", "doc C", [PyProc.GMethod.mstr "run"]⟩],
             [⟨some "I"⟩]⟩ }

/-- Witness for C10 on the concrete one-module repository `c10Input`: the
concrete module record is in the output, its final exports list is the
single-pass list appended to itself (each exported id counted twice), and
every export entry is an exported final symbol of the module. -/
theorem c10_exports_appended_twice_witness :
    c10Module ∈ (PyProc.generatePkgSymbols c10Input (fun _ => 0) 3).2 ∧
    (c10Module.exports =
        PyProc.moduleExportIds c10Module ++ PyProc.moduleExportIds c10Module ∧
      (∀ sid, c10Module.exports.count sid =
        2 * (PyProc.moduleExportIds c10Module).count sid) ∧
      ((PyProc.moduleExportIds c10Module).Nodup →
        ∀ sid ∈ PyProc.moduleExportIds c10Module,
          c10Module.exports.count sid = 2) ∧
      (∀ sid ∈ c10Module.exports,
        ∃ s ∈ (PyProc.generatePkgSymbols c10Input (fun _ => 0) 3).1,
          s.id = sid ∧ s.moduleId = c10Module.id ∧ s.isExported = true)) :=
  ⟨by decide,
   c10_exports_appended_twice c10Input (fun _ => 0) 3 c10Module (by decide)⟩

/-! ## C2 — the orchestrator's approval gate -/

namespace PyProc

/-- The outbound event types `_stream_update` emits on the code-change
workflow (`agent_orchestrator.py`). -/
inductive EvType where
  | status
  | log
  | errorEv
  | approvalRequest
  | codeChange
  | testResult
  | summary
deriving DecidableEq, Repr

/-- One outbound event: its type and the workflow stage that emitted it. -/
structure Ev where
  type : EvType
  stage : String
deriving DecidableEq, Repr

/-- The intent fields the approval gate reads (`intent.get('human_approval',
False)`). -/
structure WfIntent where
  humanApproval : Bool
deriving DecidableEq, Repr

/-- The impact-analysis fields the approval gate reads
(`impact_result.get('requires_approval', False)`). -/
structure WfImpact where
  requiresApproval : Bool
deriving DecidableEq, Repr

/-- `agent_orchestrator.py` lines 617–621: the approval condition.
`approvalEnv` is `os.getenv('AGENT_APPROVAL_REQUIRED', 'true')`. -/
def requiresApproval (intent : WfIntent) (impact : WfImpact)
    (approvalEnv : String) : Bool :=
  intent.humanApproval || impact.requiresApproval || (asciiLower approvalEnv == "true")

/-- The outcomes of the execution phases of `_execute_plan`, abstracting the
editor, test runner, verifier and PR creator (`.error` = the phase raised). -/
structure ExecPhases where
  branchPhase : Except String Unit
  editResult : Except String (List String)
  testPhase : Except String Unit
  verifyPhase : Except String Bool
  prPhase : Except String Unit

/-- `agent_orchestrator.py` lines 659–853 (`_execute_plan`): the sequence of
emitted events.  `code_change` events are emitted here and nowhere else: one
per change of `apply_edits` plus one for the overall diff. -/
def executePlan (ph : ExecPhases) : List Ev :=
  ⟨.status, "editing"⟩ ::
    match ph.branchPhase with
    | .error _ => [⟨.errorEv, "editing"⟩]
    | .ok _ =>
      ⟨.log, "editing"⟩ ::
        match ph.editResult with
        | .error _ => [⟨.errorEv, "editing"⟩]
        | .ok changes =>
          changes.map (fun _ => (⟨.codeChange, "editing"⟩ : Ev)) ++
            ⟨.codeChange, "editing"⟩ :: ⟨.status, "testing"⟩ ::
              match ph.testPhase with
              | .error _ => [⟨.errorEv, "testing"⟩]
              | .ok _ =>
                ⟨.testResult, "testing"⟩ :: ⟨.status, "verification"⟩ ::
                  match ph.verifyPhase with
                  | .error _ => [⟨.errorEv, "verification"⟩]
                  | .ok ready =>
                    ⟨.log, "verification"⟩ ::
                      if ready then
                        ⟨.status, "pr_creation"⟩ ::
                          match ph.prPhase with
                          | .error _ => [⟨.errorEv, "pr_creation"⟩]
                          | .ok _ => [⟨.summary, "pr_creation"⟩]
                      else [⟨.summary, "verification"⟩]

/-- One session's state, as `self.sessions[session_id]` holds it (the fields
the gate touches). -/
structure WfSession where
  currentPlan : Option Plan
  pendingApproval : Option String
  repoPath : Option String
deriving DecidableEq, Repr

/-- The outcomes of the phases of `_execute_workflow` that precede plan
execution, abstracting the query engine, impact analyzer and planner. -/
structure WorkflowOracles where
  queryPhase : Except String Unit
  impactPhase : Except String WfImpact
  planPhase : Except String Plan
  execPhases : ExecPhases

/-- `agent_orchestrator.py` lines 487–657 (`_execute_workflow`) from the PKG
query on: each phase emits `status` then `log` (or `error` and stop); after
planning, the plan is stored in the session with a fresh `planId` and
`pending_approval` is set; when the approval condition holds an
`approval_request` is emitted and the workflow returns to wait, otherwise
`_execute_plan` runs immediately. -/
def executeWorkflow (o : WorkflowOracles) (intent : WfIntent)
    (approvalEnv : String) (planId : String) (repoPath : String)
    (sess : WfSession) : List Ev × WfSession :=
  match o.queryPhase with
  | .error _ => ([⟨.status, "pkg_query"⟩, ⟨.errorEv, "pkg_query"⟩], sess)
  | .ok _ =>
    match o.impactPhase with
    | .error _ =>
      ([⟨.status, "pkg_query"⟩, ⟨.log, "pkg_query"⟩,
        ⟨.status, "impact_analysis"⟩, ⟨.errorEv, "impact_analysis"⟩], sess)
    | .ok impact =>
      match o.planPhase with
      | .error _ =>
        ([⟨.status, "pkg_query"⟩, ⟨.log, "pkg_query"⟩,
          ⟨.status, "impact_analysis"⟩, ⟨.log, "impact_analysis"⟩,
          ⟨.status, "planning"⟩, ⟨.errorEv, "planning"⟩], sess)
      | .ok plan0 =>
        let sess' : WfSession :=
          { sess with currentPlan := some { plan0 with planId := planId },
                      pendingApproval := some planId,
                      repoPath := some repoPath }
        let prefixEvs : List Ev :=
          [⟨.status, "pkg_query"⟩, ⟨.log, "pkg_query"⟩,
           ⟨.status, "impact_analysis"⟩, ⟨.log, "impact_analysis"⟩,
           ⟨.status, "planning"⟩, ⟨.log, "planning"⟩]
        if requiresApproval intent impact approvalEnv then
          (prefixEvs ++ [⟨.approvalRequest, "planning"⟩], sess')
        else
          (prefixEvs ++ executePlan o.execPhases, sess')

/-- `agent_orchestrator.py` lines 971–1033 (`approve_plan`): a missing plan,
a plan-id mismatch, or a missing repo path emit an `error` and change
nothing; a matching approval clears `pending_approval`, emits a `status` and
runs `_execute_plan`. -/
def approvePlan (sess : WfSession) (planId : String) (exec : ExecPhases) :
    List Ev × WfSession :=
  match sess.currentPlan with
  | none => ([⟨.errorEv, "approval"⟩], sess)
  | some plan =>
    if plan.planId ≠ planId then ([⟨.errorEv, "approval"⟩], sess)
    else
      match sess.repoPath with
      | none => ([⟨.errorEv, "approval"⟩], sess)
      | some _ =>
        (⟨.status, "approval"⟩ :: executePlan exec,
         { sess with pendingApproval := none })

/-- A client action after the workflow has suspended: an
`approve_plan(plan_id)` with the given execution outcomes. -/
inductive OrchCmd where
  | approve (planId : String) (exec : ExecPhases)

/-- Run a sequence of client actions against the session, collecting all
emitted events. -/
def runCmds : WfSession → List OrchCmd → List Ev × WfSession
  | sess, [] => ([], sess)
  | sess, OrchCmd.approve pid exec :: rest =>
    ((approvePlan sess pid exec).1 ++ (runCmds (approvePlan sess pid exec).2 rest).1,
     (runCmds (approvePlan sess pid exec).2 rest).2)

end PyProc

/-! ## Lemmas and theorems for C2 (approval gate) -/

namespace PyProc

lemma runCmds_no_codeChange (cmds : List OrchCmd) :
    ∀ (sess : WfSession) (plan : Plan), sess.currentPlan = some plan →
    (∀ pid exec, OrchCmd.approve pid exec ∈ cmds → pid ≠ plan.planId) →
    ∀ e ∈ (runCmds sess cmds).1, e.type ≠ EvType.codeChange := by
  induction cmds with
  | nil =>
    intro sess plan hplan hne e he
    simp [runCmds] at he
  | cons c rest ih =>
    intro sess plan hplan hne e he
    cases c with
    | approve pid exec =>
      have hpid : plan.planId ≠ pid :=
        Ne.symm (hne pid exec (List.mem_cons_self _ _))
      have happ : approvePlan sess pid exec = ([⟨EvType.errorEv, "approval"⟩], sess) := by
        simp [approvePlan, hplan, hpid]
      rw [runCmds, happ] at he
      rcases List.mem_append.mp he with h1 | h2
      · rcases List.mem_singleton.mp h1 with rfl
        decide
      · exact ih sess plan hplan
          (fun p ex hm => hne p ex (List.mem_cons_of_mem _ hm)) e h2

end PyProc

/-- C2: when the approval condition holds — `requires_approval` being the
disjunction of `intent.human_approval`, `impact.requires_approval` and the
`AGENT_APPROVAL_REQUIRED` configuration value (default `"true"`) — a workflow
run that reaches planning emits an `approval_request` and no `code_change`
event, stores the plan id as `pending_approval`, and no subsequent sequence
of `approve_plan` calls that lacks a matching plan id ever produces a
`code_change` event for the session. -/
theorem c2_approval_gate (o : PyProc.WorkflowOracles) (intent : PyProc.WfIntent)
    (env planId repoPath : String) (sess : PyProc.WfSession)
    (impact : PyProc.WfImpact) (plan0 : PyProc.Plan)
    (hq : o.queryPhase = Except.ok ()) (hi : o.impactPhase = Except.ok impact)
    (hp : o.planPhase = Except.ok plan0)
    (hra : PyProc.requiresApproval intent impact env = true) :
    (⟨PyProc.EvType.approvalRequest, "planning"⟩ : PyProc.Ev) ∈
      (PyProc.executeWorkflow o intent env planId repoPath sess).1 ∧
    (∀ e ∈ (PyProc.executeWorkflow o intent env planId repoPath sess).1,
      e.type ≠ PyProc.EvType.codeChange) ∧
    (PyProc.executeWorkflow o intent env planId repoPath sess).2.pendingApproval =
      some planId ∧
    (∀ cmds : List PyProc.OrchCmd,
      (∀ pid exec, PyProc.OrchCmd.approve pid exec ∈ cmds → pid ≠ planId) →
      ∀ e ∈ (PyProc.runCmds
          (PyProc.executeWorkflow o intent env planId repoPath sess).2 cmds).1,
        e.type ≠ PyProc.EvType.codeChange) := by
  have hwf : PyProc.executeWorkflow o intent env planId repoPath sess =
      ([⟨PyProc.EvType.status, "pkg_query"⟩, ⟨PyProc.EvType.log, "pkg_query"⟩,
        ⟨PyProc.EvType.status, "impact_analysis"⟩, ⟨PyProc.EvType.log, "impact_analysis"⟩,
        ⟨PyProc.EvType.status, "planning"⟩, ⟨PyProc.EvType.log, "planning"⟩,
        ⟨PyProc.EvType.approvalRequest, "planning"⟩],
       { sess with currentPlan := some { plan0 with planId := planId },
                   pendingApproval := some planId,
                   repoPath := some repoPath }) := by
    simp [PyProc.executeWorkflow, hq, hi, hp, hra]
  refine ⟨?_, ?_, ?_, ?_⟩
  · rw [hwf]
    simp
  · rw [hwf]
    intro e he
    simp only [List.mem_cons, List.not_mem_nil, or_false] at he
    rcases he with rfl | rfl | rfl | rfl | rfl | rfl | rfl <;> decide
  · rw [hwf]
  · intro cmds hne e he
    refine PyProc.runCmds_no_codeChange cmds
      (PyProc.executeWorkflow o intent env planId repoPath sess).2
      { plan0 with planId := planId } ?_ ?_ e he
    · rw [hwf]
    · intro pid exec hm
      exact hne pid exec hm

/-- Witness for C2: a concrete session whose approval condition holds through
the default configuration value alone; the workflow emits the
`approval_request`, no `code_change` appears, and an `approve_plan` with a
wrong plan id still produces none. -/
theorem c2_approval_gate_witness :
    ((⟨PyProc.EvType.approvalRequest, "planning"⟩ : PyProc.Ev) ∈
      (PyProc.executeWorkflow
        ⟨Except.ok (), Except.ok ⟨false⟩, Except.ok ⟨"uuid-0", [], "0min", false⟩,
         ⟨Except.ok (), Except.ok ["a.py"], Except.ok (), Except.ok true, Except.ok ()⟩⟩
        ⟨false⟩ "true" "plan-1" "/repo" ⟨none, none, none⟩).1) ∧
    ((⟨PyProc.EvType.codeChange, "editing"⟩ : PyProc.Ev) ∉
      (PyProc.executeWorkflow
        ⟨Except.ok (), Except.ok ⟨false⟩, Except.ok ⟨"uuid-0", [], "0min", false⟩,
         ⟨Except.ok (), Except.ok ["a.py"], Except.ok (), Except.ok true, Except.ok ()⟩⟩
        ⟨false⟩ "true" "plan-1" "/repo" ⟨none, none, none⟩).1) ∧
    ((⟨PyProc.EvType.codeChange, "editing"⟩ : PyProc.Ev) ∉
      (PyProc.runCmds
        (PyProc.executeWorkflow
          ⟨Except.ok (), Except.ok ⟨false⟩, Except.ok ⟨"uuid-0", [], "0min", false⟩,
           ⟨Except.ok (), Except.ok ["a.py"], Except.ok (), Except.ok true, Except.ok ()⟩⟩
          ⟨false⟩ "true" "plan-1" "/repo" ⟨none, none, none⟩).2
        [PyProc.OrchCmd.approve "plan-2"
          ⟨Except.ok (), Except.ok ["a.py"], Except.ok (), Except.ok true, Except.ok ()⟩]).1) := by
  have h := c2_approval_gate
    ⟨Except.ok (), Except.ok ⟨false⟩, Except.ok ⟨"uuid-0", [], "0min", false⟩,
     ⟨Except.ok (), Except.ok ["a.py"], Except.ok (), Except.ok true, Except.ok ()⟩⟩
    ⟨false⟩ "true" "plan-1" "/repo" ⟨none, none, none⟩ ⟨false⟩
    ⟨"uuid-0", [], "0min", false⟩ rfl rfl rfl (by decide)
  refine ⟨h.1, fun hc => h.2.1 _ hc rfl, fun hc => ?_⟩
  refine h.2.2.2 [PyProc.OrchCmd.approve "plan-2"
      ⟨Except.ok (), Except.ok ["a.py"], Except.ok (), Except.ok true, Except.ok ()⟩]
    ?_ _ hc rfl
  intro pid exec hm
  rcases List.mem_singleton.mp hm with heq
  injection heq with h1 _
  subst h1
  decide

/-! ## C4 — `PKGQueryEngine.get_impacted_modules` (in-memory BFS) -/

namespace PyProc

/-- `dependencies`/`dependents` are Python dicts of sets keyed by module ID:
an insertion-ordered association list with deduplicated value lists.
`addToMap m k v` is `m.setdefault(k, set()).add(v)`. -/
def addToMap (m : List (String × List String)) (k v : String) :
    List (String × List String) :=
  match m with
  | [] => [(k, [v])]
  | (k', vs) :: rest =>
    if k' = k then (k', if v ∈ vs then vs else vs ++ [v]) :: rest
    else (k', vs) :: addToMap rest k v

/-- Python `m.get(k, [])`. -/
def mapGetD (m : List (String × List String)) (k : String) : List String :=
  match m.find? (fun e => e.1 == k) with
  | some e => e.2
  | none => []

/-- `pkg_query_engine.py` lines 160–181: one edge of the adjacency-building
loop.  `dependencies[to_module].add(from_module)` and
`dependents[from_module].add(to_module)`; the pair is `(dependencies,
dependents)`. -/
def depMapsStep (maps : List (String × List String) × List (String × List String))
    (e : QEdge) : List (String × List String) × List (String × List String) :=
  match edgeEndpoints e with
  | none => maps
  | some (f, t) =>
    match extractModuleId f, extractModuleId t with
    | some fm, some tm => (addToMap maps.1 tm fm, addToMap maps.2 fm tm)
    | _, _ => maps

/-- The `(dependencies, dependents)` maps built from all edges. -/
def buildDepMaps (edges : List QEdge) :
    List (String × List String) × List (String × List String) :=
  edges.foldl depMapsStep ([], [])

/-- The union neighbourhood the BFS explores from a node: first
`dependents.get(c, [])`, then `dependencies.get(c, [])` (lines 196–203). -/
def nbrs (dependents dependencies : List (String × List String)) (c : String) :
    List String :=
  mapGetD dependents c ++ mapGetD dependencies c

/-- `pkg_query_engine.py` lines 184–203: the BFS worklist loop.  The queue is
FIFO (`queue.pop(0)`); a popped entry is skipped when already visited or
deeper than `depth`; otherwise the node is marked visited **before** its
unvisited neighbours are appended at depth `cd + 1` (dependents first, then
dependencies).  The `fuel` argument makes the recursion structural; with the
fuel supplied by `getImpactedModuleIds` the queue always drains first, so the
loop equals Python's unbounded `while queue`. -/
def bfsLoop (dependents dependencies : List (String × List String)) (depth : Nat) :
    Nat → List (String × Nat) → List String → List String
  | 0, _, visited => visited
  | _ + 1, [], visited => visited
  | fuel + 1, (c, cd) :: rest, visited =>
    if c ∈ visited ∨ depth < cd then
      bfsLoop dependents dependencies depth fuel rest visited
    else
      bfsLoop dependents dependencies depth fuel
        (rest ++
          ((mapGetD dependents c).filter (fun y => y ∉ visited ++ [c])).map
            (fun y => (y, cd + 1)) ++
          ((mapGetD dependencies c).filter (fun y => y ∉ visited ++ [c])).map
            (fun y => (y, cd + 1)))
        (visited ++ [c])

/-- Fuel that provably outlasts the loop: one pop per initial seed plus at
most one pop per adjacency entry, of which each edge contributes at most one
per map. -/
def bfsFuel (moduleIds : List String) (edges : List QEdge) : Nat :=
  moduleIds.length + 2 * edges.length + 1

/-- `pkg_query_engine.py` lines 114–222 (`get_impacted_modules`), in-memory
path (no graph-DB engine attached), restricted to the returned
`impacted_module_ids`: the set `set(module_ids) ∪ visited` (as a list with
possible repetitions; all claims read it through `∈`).  The returned
`impacted_modules`/`impacted_files` are the image of this set under
`_module_by_id`. -/
def getImpactedModuleIds (edges : List QEdge) (moduleIds : List String)
    (depth : Nat) : List String :=
  moduleIds ++
    bfsLoop (buildDepMaps edges).2 (buildDepMaps edges).1 depth
      (bfsFuel moduleIds edges) (moduleIds.map (fun mid => (mid, 0))) []

/-- A path of a given length through the union adjacency, growing at the
front. -/
inductive PathFrom (dependents dependencies : List (String × List String)) :
    String → Nat → String → Prop
  | refl (x : String) : PathFrom dependents dependencies x 0 x
  | step {x z w : String} {j : Nat} : z ∈ nbrs dependents dependencies x →
      PathFrom dependents dependencies z j w →
      PathFrom dependents dependencies x (j + 1) w

/-- Reachability from some seed within `n` steps. -/
def ReachInD (dependents dependencies : List (String × List String))
    (seeds : List String) (n : Nat) (w : String) : Prop :=
  ∃ s ∈ seeds, ∃ j ≤ n, PathFrom dependents dependencies s j w

end PyProc

/-! ## C4 groundwork: paths, map sizes, and the loop potential -/

namespace PyProc

lemma PathFrom.snoc {DP DC : List (String × List String)} {x y z : String} {j : Nat}
    (h : PathFrom DP DC x j y) (hz : z ∈ nbrs DP DC y) :
    PathFrom DP DC x (j + 1) z := by
  induction h with
  | refl x => exact PathFrom.step hz (PathFrom.refl z)
  | step hnb _ ih => exact PathFrom.step hnb (ih hz)

lemma reachInD_mono {DP DC : List (String × List String)} {seeds : List String}
    {n m : Nat} {w : String} (h : ReachInD DP DC seeds n w) (hnm : n ≤ m) :
    ReachInD DP DC seeds m w := by
  obtain ⟨s, hs, j, hj, hp⟩ := h
  exact ⟨s, hs, j, hj.trans hnm, hp⟩

lemma reachInD_step {DP DC : List (String × List String)} {seeds : List String}
    {n : Nat} {v w : String} (h : ReachInD DP DC seeds n v)
    (hw : w ∈ nbrs DP DC v) : ReachInD DP DC seeds (n + 1) w := by
  obtain ⟨s, hs, j, hj, hp⟩ := h
  exact ⟨s, hs, j + 1, by omega, hp.snoc hw⟩

lemma mapGetD_cons (k' : String) (vs : List String)
    (rest : List (String × List String)) (k : String) :
    mapGetD ((k', vs) :: rest) k = if k' = k then vs else mapGetD rest k := by
  by_cases h : k' = k
  · simp [mapGetD, List.find?_cons_of_pos, h]
  · rw [mapGetD, List.find?_cons_of_neg, if_neg h, mapGetD]
    simpa using h

lemma mapGetD_mem_values {m : List (String × List String)} {k y : String}
    (h : y ∈ mapGetD m k) : y ∈ m.flatMap (fun e => e.2) := by
  rw [mapGetD] at h
  cases hf : m.find? (fun e => e.1 == k) with
  | none => rw [hf] at h; cases h
  | some e =>
    rw [hf] at h
    exact List.mem_flatMap.mpr ⟨e, List.mem_of_find?_eq_some hf, h⟩

/-- Total number of stored adjacency entries. -/
def mapTotal (m : List (String × List String)) : Nat :=
  (m.map (fun e => e.2.length)).sum

lemma mapTotal_addToMap_le (m : List (String × List String)) (k v : String) :
    mapTotal (addToMap m k v) ≤ mapTotal m + 1 := by
  induction m with
  | nil => simp [addToMap, mapTotal]
  | cons e rest ih =>
    obtain ⟨k', vs⟩ := e
    by_cases h : k' = k
    · by_cases hv : v ∈ vs
      · simp [addToMap, h, hv, mapTotal]
      · simp only [addToMap, if_pos h, if_neg hv, mapTotal, List.map_cons,
          List.sum_cons, List.length_append, List.length_cons, List.length_nil]
        omega
    · simp only [addToMap, if_neg h, mapTotal, List.map_cons, List.sum_cons]
      have := ih
      simp only [mapTotal] at this
      omega

lemma sum_mapGetD_le (m : List (String × List String)) (U : Finset String) :
    (∑ v ∈ U, (mapGetD m v).length) ≤ mapTotal m := by
  induction m generalizing U with
  | nil => simp [mapGetD, mapTotal]
  | cons e rest ih =>
    obtain ⟨k, vs⟩ := e
    have h1 : (∑ v ∈ U, (mapGetD ((k, vs) :: rest) v).length) =
        ∑ v ∈ U, (if k = v then vs else mapGetD rest v).length := by
      refine Finset.sum_congr rfl ?_
      intro v _
      rw [mapGetD_cons]
    have h2 : (∑ v ∈ U, (if k = v then vs else mapGetD rest v).length) ≤
        (∑ v ∈ U, ((if k = v then vs.length else 0) + (mapGetD rest v).length)) := by
      refine Finset.sum_le_sum ?_
      intro v _
      split <;> simp
    have h3 : (∑ v ∈ U, ((if k = v then vs.length else 0) + (mapGetD rest v).length)) =
        (∑ v ∈ U, if k = v then vs.length else 0) +
          ∑ v ∈ U, (mapGetD rest v).length :=
      Finset.sum_add_distrib
    have h4 : (∑ v ∈ U, if k = v then vs.length else 0) ≤ vs.length := by
      rw [Finset.sum_ite_eq]
      split <;> simp
    have h5 := ih U
    have h6 : mapTotal ((k, vs) :: rest) = vs.length + mapTotal rest := by
      simp [mapTotal]
    omega

lemma buildDepMaps_total (edges : List QEdge) :
    mapTotal (buildDepMaps edges).1 ≤ edges.length ∧
    mapTotal (buildDepMaps edges).2 ≤ edges.length := by
  have key : ∀ (es : List QEdge)
      (init : List (String × List String) × List (String × List String)),
      mapTotal (es.foldl depMapsStep init).1 ≤ mapTotal init.1 + es.length ∧
      mapTotal (es.foldl depMapsStep init).2 ≤ mapTotal init.2 + es.length := by
    intro es
    induction es with
    | nil => intro init; simp
    | cons e rest ih =>
      intro init
      rw [List.foldl_cons]
      have hstep : mapTotal (depMapsStep init e).1 ≤ mapTotal init.1 + 1 ∧
          mapTotal (depMapsStep init e).2 ≤ mapTotal init.2 + 1 := by
        unfold depMapsStep
        cases hep : edgeEndpoints e with
        | none => simp [hep]
        | some ft =>
          obtain ⟨f, t⟩ := ft
          cases hf : extractModuleId f with
          | none => simp [hep, hf]
          | some fm =>
            cases ht : extractModuleId t with
            | none => simp [hep, hf, ht]
            | some tm =>
              simp only [hep, hf, ht]
              exact ⟨mapTotal_addToMap_le _ _ _, mapTotal_addToMap_le _ _ _⟩
      have := ih (depMapsStep init e)
      simp only [List.length_cons]
      omega
  have h := key edges ([], [])
  simpa [mapTotal] using h

/-- The combined stored degree of a node. -/
def bfsDeg (dependents dependencies : List (String × List String)) (v : String) :
    Nat :=
  (mapGetD dependents v).length + (mapGetD dependencies v).length

/-- The loop potential: pending queue entries plus the degrees of the not yet
visited nodes of `U`.  Every step of `bfsLoop` decreases it. -/
def bfsPotential (dependents dependencies : List (String × List String))
    (U : Finset String) (q : List (String × Nat)) (vis : List String) : Nat :=
  q.length + ∑ v ∈ U.filter (fun v => v ∉ vis), bfsDeg dependents dependencies v

lemma bfsPotential_tail (dependents dependencies : List (String × List String))
    (U : Finset String) (p : String × Nat) (rest : List (String × Nat))
    (vis : List String) :
    bfsPotential dependents dependencies U (p :: rest) vis =
      bfsPotential dependents dependencies U rest vis + 1 := by
  simp [bfsPotential]
  omega

lemma bfsPotential_visit (dependents dependencies : List (String × List String))
    (U : Finset String) (c : String) (cd : Nat) (rest app : List (String × Nat))
    (vis : List String) (hcU : c ∈ U) (hcvis : c ∉ vis)
    (happ : app.length ≤ bfsDeg dependents dependencies c) :
    bfsPotential dependents dependencies U (rest ++ app) (vis ++ [c]) + 1 ≤
      bfsPotential dependents dependencies U ((c, cd) :: rest) vis := by
  have hset : U.filter (fun v => v ∉ vis ++ [c]) =
      (U.filter (fun v => v ∉ vis)).erase c := by
    ext x
    simp only [Finset.mem_filter, Finset.mem_erase, List.mem_append,
      List.mem_singleton]
    constructor
    · rintro ⟨hxU, hx⟩
      push_neg at hx
      exact ⟨hx.2, hxU, hx.1⟩
    · rintro ⟨hxc, hxU, hxvis⟩
      refine ⟨hxU, ?_⟩
      push_neg
      exact ⟨hxvis, hxc⟩
  have hcmem : c ∈ U.filter (fun v => v ∉ vis) := by
    simp only [Finset.mem_filter]
    exact ⟨hcU, by simpa using hcvis⟩
  have hsum : (∑ v ∈ (U.filter (fun v => v ∉ vis)).erase c,
      bfsDeg dependents dependencies v) + bfsDeg dependents dependencies c =
      ∑ v ∈ U.filter (fun v => v ∉ vis), bfsDeg dependents dependencies v :=
    Finset.sum_erase_add _ _ hcmem
  simp only [bfsPotential, hset, List.length_append, List.length_cons]
  omega

end PyProc

/-! ## C4: the BFS invariant and its preservation -/

namespace PyProc

lemma pathFrom_zero {DP DC : List (String × List String)} {x w : String}
    (h : PathFrom DP DC x 0 w) : w = x := by
  cases h
  rfl

lemma pathFrom_succ {DP DC : List (String × List String)} {x w : String} {j : Nat}
    (h : PathFrom DP DC x (j + 1) w) :
    ∃ z, z ∈ nbrs DP DC x ∧ PathFrom DP DC z j w := by
  cases h with
  | step hz hp => exact ⟨_, hz, hp⟩

lemma pairwise_map_const_snd (l : List String) (n : Nat) :
    (l.map (fun y => (y, n))).Pairwise
      (fun (a b : String × Nat) => a.2 ≤ b.2) := by
  induction l with
  | nil => simp
  | cons y rest ih =>
    simp only [List.map_cons, List.pairwise_cons]
    refine ⟨?_, ih⟩
    intro b hb
    rw [List.mem_map] at hb
    obtain ⟨y', -, rfl⟩ := hb
    exact le_rfl

lemma mem_enqueue {l vis' : List String} {cd : Nat} {p : String × Nat}
    (hp : p ∈ (l.filter (fun y => decide (y ∉ vis'))).map (fun y => (y, cd + 1))) :
    p.2 = cd + 1 ∧ p.1 ∈ l ∧ p.1 ∉ vis' := by
  rw [List.mem_map] at hp
  obtain ⟨y, hy, rfl⟩ := hp
  rw [List.mem_filter] at hy
  exact ⟨rfl, hy.1, by simpa using hy.2⟩

lemma enqueue_mem {l vis' : List String} {cd : Nat} {y : String}
    (hy : y ∈ l) (hnv : y ∉ vis') :
    (y, cd + 1) ∈ (l.filter (fun y => decide (y ∉ vis'))).map (fun y => (y, cd + 1)) := by
  rw [List.mem_map]
  exact ⟨y, List.mem_filter.mpr ⟨hy, by simpa using hnv⟩, rfl⟩

/-- The loop invariant of the impact BFS, with a ghost assignment `m` of pop
depths to visited nodes. -/
structure BfsInv (DP DC : List (String × List String)) (seeds : List String)
    (d : Nat) (q : List (String × Nat)) (vis : List String) (m : String → Nat) :
    Prop where
  soundQ : ∀ p ∈ q, ReachInD DP DC seeds p.2 p.1
  soundV : ∀ v ∈ vis, ∃ k ≤ d, ReachInD DP DC seeds k v
  sorted : q.Pairwise (fun a b => a.2 ≤ b.2)
  close : ∀ p ∈ q, ∀ p' ∈ q, p.2 ≤ p'.2 + 1
  reachWit : ∀ w k, ReachInD DP DC seeds k w → k ≤ d →
    w ∈ vis ∨ ∃ p ∈ q, ∃ j, PathFrom DP DC p.1 j w ∧ p.2 + j ≤ d
  vclose : ∀ v ∈ vis, ∀ y ∈ nbrs DP DC v,
    y ∈ vis ∨ (∃ cd, (y, cd) ∈ q ∧ cd ≤ m v + 1) ∨ d < m v + 1
  vbound : ∀ v ∈ vis, ∀ p ∈ q, m v ≤ p.2

/-- Walking a path that starts inside the visited set: it either stays
visited all the way or hands over to a queue entry with enough depth budget
left. -/
lemma bfs_walk (DP DC : List (String × List String)) (d : Nat)
    (q : List (String × Nat)) (vis : List String) (m : String → Nat)
    (hvclose : ∀ v ∈ vis, ∀ y ∈ nbrs DP DC v,
      y ∈ vis ∨ (∃ cd, (y, cd) ∈ q ∧ cd ≤ m v + 1) ∨ d < m v + 1)
    (B : Nat) (hB : ∀ v ∈ vis, m v ≤ B) :
    ∀ (j : Nat) (y w : String), y ∈ vis → PathFrom DP DC y j w → B + j ≤ d →
      w ∈ vis ∨ ∃ p ∈ q, ∃ j', PathFrom DP DC p.1 j' w ∧ p.2 + j' ≤ d := by
  intro j
  induction j with
  | zero =>
    intro y w hy hp _
    rw [pathFrom_zero hp]
    exact Or.inl hy
  | succ j0 ih =>
    intro y w hy hp hbud
    obtain ⟨z, hz, hp'⟩ := pathFrom_succ hp
    rcases hvclose y hy z hz with hzv | ⟨cd', hcd', hle⟩ | hgt
    · exact ih z w hzv hp' (by omega)
    · refine Or.inr ⟨(z, cd'), hcd', j0, hp', ?_⟩
      have := hB y hy
      simp only []
      omega
    · have := hB y hy
      omega

end PyProc

namespace PyProc

lemma mem_bfs_enqueue_cases {DP DC : List (String × List String)} {c : String}
    {cd : Nat} {rest : List (String × Nat)} {vis : List String} {p : String × Nat}
    (hp : p ∈ rest ++
        ((mapGetD DP c).filter (fun y => y ∉ vis ++ [c])).map (fun y => (y, cd + 1)) ++
        ((mapGetD DC c).filter (fun y => y ∉ vis ++ [c])).map (fun y => (y, cd + 1))) :
    p ∈ rest ∨ (p.2 = cd + 1 ∧ p.1 ∈ nbrs DP DC c ∧ p.1 ∉ vis ++ [c]) := by
  rcases List.mem_append.mp hp with h12 | h2
  · rcases List.mem_append.mp h12 with h0 | h1
    · exact Or.inl h0
    · obtain ⟨h2', hmem, hnv⟩ := mem_enqueue h1
      exact Or.inr ⟨h2', List.mem_append_left _ hmem, hnv⟩
  · obtain ⟨h2', hmem, hnv⟩ := mem_enqueue h2
    exact Or.inr ⟨h2', List.mem_append_right _ hmem, hnv⟩

lemma bfs_enqueue_mem {DP DC : List (String × List String)} {c : String}
    {cd : Nat} (rest : List (String × Nat)) {vis : List String} {y : String}
    (hy : y ∈ nbrs DP DC c) (hnv : y ∉ vis ++ [c]) :
    (y, cd + 1) ∈ rest ++
        ((mapGetD DP c).filter (fun y => y ∉ vis ++ [c])).map (fun y => (y, cd + 1)) ++
        ((mapGetD DC c).filter (fun y => y ∉ vis ++ [c])).map (fun y => (y, cd + 1)) := by
  rcases List.mem_append.mp hy with h1 | h2
  · exact List.mem_append_left _ (List.mem_append_right _ (enqueue_mem h1 hnv))
  · exact List.mem_append_right _ (enqueue_mem h2 hnv)

lemma bfs_visit_preserve (DP DC : List (String × List String))
    (seeds : List String) (d : Nat) (c : String) (cd : Nat)
    (rest : List (String × Nat)) (vis : List String) (m : String → Nat)
    (hInv : BfsInv DP DC seeds d ((c, cd) :: rest) vis m)
    (hcv : c ∉ vis) (hcd : cd ≤ d) :
    BfsInv DP DC seeds d
      (rest ++
        ((mapGetD DP c).filter (fun y => y ∉ vis ++ [c])).map (fun y => (y, cd + 1)) ++
        ((mapGetD DC c).filter (fun y => y ∉ vis ++ [c])).map (fun y => (y, cd + 1)))
      (vis ++ [c]) (fun x => if x = c then cd else m x) := by
  have hreachC : ReachInD DP DC seeds cd c :=
    hInv.soundQ (c, cd) (List.mem_cons_self _ _)
  have hrest_ge : ∀ p ∈ rest, cd ≤ p.2 := (List.pairwise_cons.mp hInv.sorted).1
  have hrest_le : ∀ p ∈ rest, p.2 ≤ cd + 1 := fun p hp =>
    hInv.close p (List.mem_cons_of_mem _ hp) (c, cd) (List.mem_cons_self _ _)
  have hvb : ∀ v ∈ vis, m v ≤ cd := fun v hv =>
    hInv.vbound v hv (c, cd) (List.mem_cons_self _ _)
  have hvclose' : ∀ v ∈ vis ++ [c], ∀ y ∈ nbrs DP DC v,
      y ∈ vis ++ [c] ∨
      (∃ cd', (y, cd') ∈ rest ++
          ((mapGetD DP c).filter (fun y => y ∉ vis ++ [c])).map (fun y => (y, cd + 1)) ++
          ((mapGetD DC c).filter (fun y => y ∉ vis ++ [c])).map (fun y => (y, cd + 1)) ∧
        cd' ≤ (if v = c then cd else m v) + 1) ∨
      d < (if v = c then cd else m v) + 1 := by
    intro v hv y hy
    rcases List.mem_append.mp hv with hvv | hvc
    · have hvc' : ¬ v = c := fun h => hcv (h ▸ hvv)
      rw [if_neg hvc']
      rcases hInv.vclose v hvv y hy with h1 | ⟨cd', hcd', hle⟩ | h3
      · exact Or.inl (List.mem_append_left _ h1)
      · rcases List.mem_cons.mp hcd' with heq | hmem
        · injection heq with hy0 hcd0
          exact Or.inl (List.mem_append_right _ (hy0 ▸ List.mem_singleton_self c))
        · exact Or.inr (Or.inl ⟨cd', List.mem_append_left _ (List.mem_append_left _ hmem), hle⟩)
      · exact Or.inr (Or.inr h3)
    · have hvc : v = c := List.mem_singleton.mp hvc
      subst hvc
      rw [if_pos rfl]
      by_cases hy' : y ∈ vis ++ [v]
      · exact Or.inl hy'
      · exact Or.inr (Or.inl ⟨cd + 1, bfs_enqueue_mem rest hy hy', le_rfl⟩)
  have hB' : ∀ v ∈ vis ++ [c], (if v = c then cd else m v) ≤ cd := by
    intro v hv
    by_cases h : v = c
    · rw [if_pos h]
    · rw [if_neg h]
      rcases List.mem_append.mp hv with hvv | hvc
      · exact hvb v hvv
      · exact absurd (List.mem_singleton.mp hvc) h
  refine ⟨?_, ?_, ?_, ?_, ?_, hvclose', ?_⟩
  · -- soundQ
    intro p hp
    rcases mem_bfs_enqueue_cases hp with h0 | ⟨h2, hn, -⟩
    · exact hInv.soundQ p (List.mem_cons_of_mem _ h0)
    · exact h2.symm ▸ reachInD_step hreachC hn
  · -- soundV
    intro v hv
    rcases List.mem_append.mp hv with hvv | hvc
    · exact hInv.soundV v hvv
    · exact (List.mem_singleton.mp hvc) ▸ ⟨cd, hcd, hreachC⟩
  · -- sorted
    rw [List.pairwise_append]
    refine ⟨?_, pairwise_map_const_snd _ _, ?_⟩
    · rw [List.pairwise_append]
      refine ⟨hInv.sorted.of_cons, pairwise_map_const_snd _ _, ?_⟩
      intro a ha b hb
      obtain ⟨hb2, -, -⟩ := mem_enqueue hb
      rw [hb2]
      exact hrest_le a ha
    · intro a ha b hb
      obtain ⟨hb2, -, -⟩ := mem_enqueue hb
      rw [hb2]
      rcases List.mem_append.mp ha with h0 | h1
      · exact hrest_le a h0
      · obtain ⟨ha2, -, -⟩ := mem_enqueue h1
        rw [ha2]
  · -- close
    intro p hp p' hp'
    rcases mem_bfs_enqueue_cases hp with h0 | ⟨h2, -, -⟩ <;>
      rcases mem_bfs_enqueue_cases hp' with h0' | ⟨h2', -, -⟩
    · exact hInv.close p (List.mem_cons_of_mem _ h0) p' (List.mem_cons_of_mem _ h0')
    · have := hrest_le p h0
      omega
    · have := hrest_ge p' h0'
      omega
    · omega
  · -- reachWit
    intro w k hr hk
    rcases hInv.reachWit w k hr hk with hv | ⟨p, hp, j, hpath, hbud⟩
    · exact Or.inl (List.mem_append_left _ hv)
    · rcases List.mem_cons.mp hp with rfl | hp'
      · -- p = (c, cd); hpath : PathFrom from c
        cases j with
        | zero =>
          exact Or.inl (List.mem_append_right _
            ((pathFrom_zero hpath) ▸ List.mem_singleton_self c))
        | succ j0 =>
          obtain ⟨z, hz, hp2⟩ := pathFrom_succ hpath
          by_cases hzv : z ∈ vis ++ [c]
          · exact bfs_walk DP DC d _ (vis ++ [c]) _ hvclose' cd hB' j0 z w hzv hp2
              (by simp only [] at hbud; omega)
          · refine Or.inr ⟨(z, cd + 1), bfs_enqueue_mem rest hz hzv, j0, hp2, ?_⟩
            simp only [] at hbud ⊢
            omega
      · exact Or.inr ⟨p, List.mem_append_left _ (List.mem_append_left _ hp'), j,
          hpath, hbud⟩
  · -- vbound
    intro v hv p hp
    by_cases hveq : v = c
    · rw [if_pos hveq]
      rcases mem_bfs_enqueue_cases hp with h0 | ⟨h2, -, -⟩
      · exact hrest_ge p h0
      · omega
    · rw [if_neg hveq]
      have hvv : v ∈ vis := by
        rcases List.mem_append.mp hv with h | h
        · exact h
        · exact absurd (List.mem_singleton.mp h) hveq
      rcases mem_bfs_enqueue_cases hp with h0 | ⟨h2, -, -⟩
      · exact hInv.vbound v hvv p (List.mem_cons_of_mem _ h0)
      · have := hvb v hvv
        omega

end PyProc

namespace PyProc

lemma bfs_master (DP DC : List (String × List String)) (seeds : List String)
    (d : Nat) (U : Finset String)
    (hnbrsU : ∀ x y, y ∈ nbrs DP DC x → y ∈ U) :
    ∀ (fuel : Nat) (q : List (String × Nat)) (vis : List String) (m : String → Nat),
      BfsInv DP DC seeds d q vis m →
      (∀ p ∈ q, p.1 ∈ U) →
      bfsPotential DP DC U q vis ≤ fuel →
      (∀ v ∈ bfsLoop DP DC d fuel q vis, ∃ k, k ≤ d ∧ ReachInD DP DC seeds k v) ∧
      (∀ w k, ReachInD DP DC seeds k w → k ≤ d → w ∈ bfsLoop DP DC d fuel q vis) ∧
      (∀ v ∈ vis, v ∈ bfsLoop DP DC d fuel q vis) := by
  intro fuel
  induction fuel with
  | zero =>
    intro q vis m hInv hqU hpot
    have hq : q = [] := by
      have hlen : q.length = 0 := by
        simp only [bfsPotential] at hpot
        omega
      exact List.length_eq_zero.mp hlen
    subst hq
    refine ⟨fun v hv => ?_, fun w k hr hk => ?_, fun v hv => hv⟩
    · rcases hInv.soundV v hv with ⟨j, hj, hr⟩
      exact ⟨j, hj, hr⟩
    · rcases hInv.reachWit w k hr hk with hv | ⟨p, hp, -⟩
      · exact hv
      · exact absurd hp (List.not_mem_nil p)
  | succ fuel ih =>
    intro q vis m hInv hqU hpot
    rcases q with _ | ⟨⟨c, cd⟩, rest⟩
    · refine ⟨fun v hv => ?_, fun w k hr hk => ?_, fun v hv => hv⟩
      · rcases hInv.soundV v hv with ⟨j, hj, hr⟩
        exact ⟨j, hj, hr⟩
      · rcases hInv.reachWit w k hr hk with hv | ⟨p, hp, -⟩
        · exact hv
        · exact absurd hp (List.not_mem_nil p)
    · have hred : bfsLoop DP DC d (fuel + 1) ((c, cd) :: rest) vis =
          if c ∈ vis ∨ d < cd then bfsLoop DP DC d fuel rest vis
          else bfsLoop DP DC d fuel
            (rest ++
              ((mapGetD DP c).filter (fun y => y ∉ vis ++ [c])).map (fun y => (y, cd + 1)) ++
              ((mapGetD DC c).filter (fun y => y ∉ vis ++ [c])).map (fun y => (y, cd + 1)))
            (vis ++ [c]) := rfl
      by_cases hskip : c ∈ vis ∨ d < cd
      · rw [hred, if_pos hskip]
        have hInv' : BfsInv DP DC seeds d rest vis m := by
          refine ⟨fun p hp => hInv.soundQ p (List.mem_cons_of_mem _ hp),
            hInv.soundV, hInv.sorted.of_cons,
            fun p hp p' hp' => hInv.close p (List.mem_cons_of_mem _ hp) p'
              (List.mem_cons_of_mem _ hp'), ?_, ?_,
            fun v hv p hp => hInv.vbound v hv p (List.mem_cons_of_mem _ hp)⟩
          · -- reachWit
            intro w k hr hk
            rcases hInv.reachWit w k hr hk with hv | ⟨p, hp, j, hpath, hbud⟩
            · exact Or.inl hv
            · rcases List.mem_cons.mp hp with rfl | hp'
              · rcases hskip with hcv | hdcd
                · refine bfs_walk DP DC d rest vis m ?_ cd
                    (fun v hv => hInv.vbound v hv (c, cd) (List.mem_cons_self _ _))
                    j c w hcv hpath hbud
                  intro v hv y hy
                  rcases hInv.vclose v hv y hy with h1 | ⟨cd', hcd', hle⟩ | h3
                  · exact Or.inl h1
                  · rcases List.mem_cons.mp hcd' with heq | hmem
                    · injection heq with hy0 hcd0
                      exact Or.inl (hy0 ▸ hcv)
                    · exact Or.inr (Or.inl ⟨cd', hmem, hle⟩)
                  · exact Or.inr (Or.inr h3)
                · simp only [] at hbud
                  omega
              · exact Or.inr ⟨p, hp', j, hpath, hbud⟩
          · -- vclose
            intro v hv y hy
            rcases hInv.vclose v hv y hy with h1 | ⟨cd', hcd', hle⟩ | h3
            · exact Or.inl h1
            · rcases List.mem_cons.mp hcd' with heq | hmem
              · injection heq with hy0 hcd0
                rcases hskip with hcv | hdcd
                · exact Or.inl (hy0 ▸ hcv)
                · refine Or.inr (Or.inr ?_)
                  omega
              · exact Or.inr (Or.inl ⟨cd', hmem, hle⟩)
            · exact Or.inr (Or.inr h3)
        have hpot' : bfsPotential DP DC U rest vis ≤ fuel := by
          have := bfsPotential_tail DP DC U (c, cd) rest vis
          omega
        exact ih rest vis m hInv' (fun p hp => hqU p (List.mem_cons_of_mem _ hp)) hpot'
      · push_neg at hskip
        obtain ⟨hcv, hcdle⟩ := hskip
        have hcd : cd ≤ d := by omega
        rw [hred, if_neg (by push_neg; exact ⟨hcv, hcdle⟩)]
        have hInv' := bfs_visit_preserve DP DC seeds d c cd rest vis m hInv hcv hcd
        have hqU' : ∀ p ∈ rest ++
            ((mapGetD DP c).filter (fun y => y ∉ vis ++ [c])).map (fun y => (y, cd + 1)) ++
            ((mapGetD DC c).filter (fun y => y ∉ vis ++ [c])).map (fun y => (y, cd + 1)),
            p.1 ∈ U := by
          intro p hp
          rcases mem_bfs_enqueue_cases hp with h0 | ⟨-, hn, -⟩
          · exact hqU p (List.mem_cons_of_mem _ h0)
          · exact hnbrsU c p.1 hn
        have hcU : c ∈ U := hqU (c, cd) (List.mem_cons_self _ _)
        have happlen :
            (((mapGetD DP c).filter (fun y => y ∉ vis ++ [c])).map (fun y => (y, cd + 1)) ++
             ((mapGetD DC c).filter (fun y => y ∉ vis ++ [c])).map (fun y => (y, cd + 1))).length
              ≤ bfsDeg DP DC c := by
          simp only [List.length_append, List.length_map, bfsDeg]
          have h1 := List.length_filter_le (fun y => decide (y ∉ vis ++ [c])) (mapGetD DP c)
          have h2 := List.length_filter_le (fun y => decide (y ∉ vis ++ [c])) (mapGetD DC c)
          omega
        have hpot' : bfsPotential DP DC U
            (rest ++
              ((mapGetD DP c).filter (fun y => y ∉ vis ++ [c])).map (fun y => (y, cd + 1)) ++
              ((mapGetD DC c).filter (fun y => y ∉ vis ++ [c])).map (fun y => (y, cd + 1)))
            (vis ++ [c]) ≤ fuel := by
          have hv := bfsPotential_visit DP DC U c cd rest
            (((mapGetD DP c).filter (fun y => y ∉ vis ++ [c])).map (fun y => (y, cd + 1)) ++
             ((mapGetD DC c).filter (fun y => y ∉ vis ++ [c])).map (fun y => (y, cd + 1)))
            vis hcU hcv happlen
          have hassoc : rest ++
              ((mapGetD DP c).filter (fun y => y ∉ vis ++ [c])).map (fun y => (y, cd + 1)) ++
              ((mapGetD DC c).filter (fun y => y ∉ vis ++ [c])).map (fun y => (y, cd + 1)) =
              rest ++
              (((mapGetD DP c).filter (fun y => y ∉ vis ++ [c])).map (fun y => (y, cd + 1)) ++
               ((mapGetD DC c).filter (fun y => y ∉ vis ++ [c])).map (fun y => (y, cd + 1))) :=
            List.append_assoc _ _ _
          rw [hassoc]
          omega
        have hres := ih _ _ (fun x => if x = c then cd else m x) hInv' hqU' hpot'
        exact ⟨hres.1, hres.2.1, fun v hv => hres.2.2 v (List.mem_append_left _ hv)⟩

end PyProc

namespace PyProc

/-- The initial worklist `[(mid, 0) for mid in module_ids]` with nothing
visited satisfies the BFS invariant. -/
lemma bfs_initial_inv (DP DC : List (String × List String)) (seeds : List String)
    (d : Nat) :
    BfsInv DP DC seeds d (seeds.map (fun mid => (mid, 0))) []
      (fun _ => 0) := by
  refine ⟨?_, ?_, pairwise_map_const_snd seeds 0, ?_, ?_, ?_, ?_⟩
  · intro p hp
    rw [List.mem_map] at hp
    obtain ⟨s, hs, rfl⟩ := hp
    exact ⟨s, hs, 0, le_rfl, PathFrom.refl s⟩
  · intro v hv
    exact absurd hv (List.not_mem_nil v)
  · intro p hp p' hp'
    rw [List.mem_map] at hp
    obtain ⟨s, hs, rfl⟩ := hp
    omega
  · intro w k hr hk
    obtain ⟨s, hs, j, hj, hpath⟩ := hr
    refine Or.inr ⟨(s, 0), List.mem_map.mpr ⟨s, hs, rfl⟩, j, hpath, ?_⟩
    simp only []
    omega
  · intro v hv
    exact absurd hv (List.not_mem_nil v)
  · intro v hv
    exact absurd hv (List.not_mem_nil v)

/-- The fuel `getImpactedModuleIds` supplies strictly dominates the initial
potential, for the universe of all nodes held in either adjacency map
together with the seeds. -/
lemma bfs_fuel_sufficient (edges : List QEdge) (seeds : List String) :
    bfsPotential (buildDepMaps edges).2 (buildDepMaps edges).1
      (seeds.toFinset ∪
        (((buildDepMaps edges).2.flatMap (fun e => e.2)).toFinset ∪
         ((buildDepMaps edges).1.flatMap (fun e => e.2)).toFinset))
      (seeds.map (fun mid => (mid, 0))) [] ≤ bfsFuel seeds edges := by
  have hfilter : ∀ (U : Finset String),
      U.filter (fun v => v ∉ ([] : List String)) = U := by
    intro U
    refine Finset.filter_true_of_mem ?_
    intro v _
    exact List.not_mem_nil v
  rw [bfsPotential, hfilter, List.length_map]
  have hsum : ∀ (U : Finset String),
      (∑ v ∈ U, bfsDeg (buildDepMaps edges).2 (buildDepMaps edges).1 v) ≤
        mapTotal (buildDepMaps edges).2 + mapTotal (buildDepMaps edges).1 := by
    intro U
    have hsplit : (∑ v ∈ U, bfsDeg (buildDepMaps edges).2 (buildDepMaps edges).1 v) =
        (∑ v ∈ U, (mapGetD (buildDepMaps edges).2 v).length) +
        (∑ v ∈ U, (mapGetD (buildDepMaps edges).1 v).length) := by
      rw [← Finset.sum_add_distrib]
      rfl
    rw [hsplit]
    exact Nat.add_le_add (sum_mapGetD_le _ U) (sum_mapGetD_le _ U)
  have h1 := hsum (seeds.toFinset ∪
        (((buildDepMaps edges).2.flatMap (fun e => e.2)).toFinset ∪
         ((buildDepMaps edges).1.flatMap (fun e => e.2)).toFinset))
  have h2 := (buildDepMaps_total edges).1
  have h3 := (buildDepMaps_total edges).2
  rw [bfsFuel]
  omega

/-- `get_impacted_modules` returns exactly the seed ids together with the
nodes reachable from a seed within `depth` steps of the union adjacency. -/
lemma getImpacted_characterization (edges : List QEdge) (seeds : List String)
    (d : Nat) (x : String) :
    x ∈ getImpactedModuleIds edges seeds d ↔
      x ∈ seeds ∨ ∃ k ≤ d, ReachInD (buildDepMaps edges).2 (buildDepMaps edges).1
        seeds k x := by
  have hnbrsU : ∀ a y, y ∈ nbrs (buildDepMaps edges).2 (buildDepMaps edges).1 a →
      y ∈ (seeds.toFinset ∪
        (((buildDepMaps edges).2.flatMap (fun e => e.2)).toFinset ∪
         ((buildDepMaps edges).1.flatMap (fun e => e.2)).toFinset)) := by
    intro a y hy
    rcases List.mem_append.mp hy with h | h
    · exact Finset.mem_union_right _ (Finset.mem_union_left _
        (List.mem_toFinset.mpr (mapGetD_mem_values h)))
    · exact Finset.mem_union_right _ (Finset.mem_union_right _
        (List.mem_toFinset.mpr (mapGetD_mem_values h)))
  have hqU : ∀ p ∈ seeds.map (fun mid => (mid, 0)),
      p.1 ∈ (seeds.toFinset ∪
        (((buildDepMaps edges).2.flatMap (fun e => e.2)).toFinset ∪
         ((buildDepMaps edges).1.flatMap (fun e => e.2)).toFinset)) := by
    intro p hp
    rw [List.mem_map] at hp
    obtain ⟨s, hs, rfl⟩ := hp
    exact Finset.mem_union_left _ (List.mem_toFinset.mpr hs)
  have hmaster := bfs_master (buildDepMaps edges).2 (buildDepMaps edges).1 seeds d
    (seeds.toFinset ∪
        (((buildDepMaps edges).2.flatMap (fun e => e.2)).toFinset ∪
         ((buildDepMaps edges).1.flatMap (fun e => e.2)).toFinset))
    hnbrsU (bfsFuel seeds edges) (seeds.map (fun mid => (mid, 0))) []
    (fun _ => 0) (bfs_initial_inv _ _ _ _) hqU (bfs_fuel_sufficient edges seeds)
  constructor
  · intro hx
    rcases List.mem_append.mp hx with h | h
    · exact Or.inl h
    · exact Or.inr (hmaster.1 x h)
  · intro hx
    rcases hx with h | ⟨k, hk, hr⟩
    · exact List.mem_append_left _ h
    · exact List.mem_append_right _ (hmaster.2.1 x k hr hk)

end PyProc

/-! ## C4: impact monotonicity in the depth parameter -/

/-- **C4.** For the in-memory BFS of `get_impacted_modules`
(`pkg_query_engine.py` lines 114–222), the set of returned impacted module
ids is monotone in the `depth` parameter: every module id returned for depth
`d1` is also returned for any depth `d2 ≥ d1`, over any edge list and any
seed list. -/
theorem c4_impact_monotonicity (edges : List PyProc.QEdge)
    (seeds : List String) (d1 d2 : Nat) (h : d1 ≤ d2) :
    ∀ x ∈ PyProc.getImpactedModuleIds edges seeds d1,
      x ∈ PyProc.getImpactedModuleIds edges seeds d2 := by
  intro x hx
  rw [PyProc.getImpacted_characterization] at hx ⊢
  rcases hx with h0 | ⟨k, hk, hr⟩
  · exact Or.inl h0
  · exact Or.inr ⟨k, hk.trans h, hr⟩

/-- Witness for C4 at a concrete input: a two-edge import chain
`mod:a → mod:b → mod:c`; with seed `mod:a`, depth 1 already contains
`mod:b`, and by the theorem so does depth 2. -/
theorem c4_impact_monotonicity_witness :
    (1 : Nat) ≤ 2 ∧
    "mod:b" ∈ PyProc.getImpactedModuleIds
      [{ efrom := some "mod:a", eto := some "mod:b", etype := "imports" },
       { efrom := some "mod:b", eto := some "mod:c", etype := "imports" }]
      ["mod:a"] 1 ∧
    "mod:b" ∈ PyProc.getImpactedModuleIds
      [{ efrom := some "mod:a", eto := some "mod:b", etype := "imports" },
       { efrom := some "mod:b", eto := some "mod:c", etype := "imports" }]
      ["mod:a"] 2 :=
  ⟨by decide, by decide,
    c4_impact_monotonicity _ _ 1 2 (by decide) "mod:b" (by decide)⟩
